import Mathlib

set_option maxRecDepth 16384

/-!
Verification of the medical-device parameter fusion engine.

This file gives a shallow embedding, over `List Char`, of the fusion core of
the repository (src/src/fusion_engine.py, src/src/numeric_processor.py,
src/src/text_processor.py, src/src/parameter_parser.py,
src/src/parameter_preprocessor.py, src/main.py, src/config/config.py), and
proves properties of the embedded functions.

Conventions:
- Python strings are embedded as `List Char` (`Str`); Python floats as the
  kernel-computable exact fractions `Q` below, with comparisons and equality
  taken on the represented value (`round(x, n)` is embedded as round-half-up,
  which agrees with the float behaviour away from exact ties).
- Fallible operations returning `None` are embedded as `Option`.
- The external similarity library (fuzzywuzzy) and the keyword extractor
  (jieba) are not part of the repository; functions that call them are
  parameterized over the metric/extractor functions.
- The module config/synonyms.py (MEDICAL_UNITS, MEDICAL_SYNONYMS,
  NEGATIVE_WORDS, MODIFIER_WORDS, RANGE_KEYWORDS) is imported by the sources
  but absent from the repository snapshot; those tables are modelled from the
  specification (see the individual doc comments).
- The standard-library difflib.SequenceMatcher ratio (used by
  NumericProcessor.is_relevant_data) is implemented directly.
-/

/-- Python strings are embedded as lists of characters. -/
abbrev Str : Type := List Char

/-- Whitespace characters recognized by the regex class of the Python sources
(ASCII whitespace plus the ideographic space; other rare Unicode spaces do not
occur in this development). -/
def isPySpace (c : Char) : Bool :=
  c = ' ' ∨ c = '\t' ∨ c = '\n' ∨ c = '\r' ∨ c = '\x0b' ∨ c = '\x0c' ∨ c = '　'

/-- CJK unified ideographs, the range written as 一-龥 in the sources. -/
def isCJK (c : Char) : Bool :=
  0x4e00 ≤ c.toNat ∧ c.toNat ≤ 0x9fff

/-- Word characters for the regex \w as used on the data of this development:
ASCII alphanumerics, underscore and CJK ideographs. -/
def isWordC (c : Char) : Bool :=
  c.isAlphanum ∨ c = '_' ∨ isCJK c

/-- Lower-casing a character (the inputs of this development only contain
ASCII letters, digits, symbols and CJK ideographs, on which Python str.lower
agrees with ASCII lowering). -/
def lowerC (c : Char) : Char := c.toLower

/-- str.lower() -/
def lowerL (l : Str) : Str := l.map lowerC

/-- str.strip() -/
def trimL (l : Str) : Str :=
  ((l.dropWhile isPySpace).reverse.dropWhile isPySpace).reverse

/-- Kernel-computable rationals: an unreduced fraction with an integer
numerator and a natural denominator (kept positive by every constructor in
this file).  Python float arithmetic is embedded through these, with
comparisons and equality taken on the represented value; Q.val maps to Q for
semantic statements. -/
structure Q where
  n : ℤ
  d : ℕ
deriving DecidableEq, Repr

/-- The rational value represented by a fraction. -/
def Q.val (q : Q) : ℚ := (q.n : ℚ) / (q.d : ℚ)

def Q.ofInt (z : ℤ) : Q := ⟨z, 1⟩

instance : OfNat Q m := ⟨⟨m, 1⟩⟩

instance : Add Q := ⟨fun a b => ⟨a.n * b.d + b.n * a.d, a.d * b.d⟩⟩

instance : Sub Q := ⟨fun a b => ⟨a.n * b.d - b.n * a.d, a.d * b.d⟩⟩

instance : Neg Q := ⟨fun a => ⟨-a.n, a.d⟩⟩

instance : Mul Q := ⟨fun a b => ⟨a.n * b.n, a.d * b.d⟩⟩

def divQ (a b : Q) : Q :=
  if 0 < b.n then ⟨a.n * b.d, a.d * b.n.toNat⟩
  else if b.n < 0 then ⟨-(a.n * b.d), a.d * (-b.n).toNat⟩
  else ⟨0, 1⟩

instance : Div Q := ⟨divQ⟩

instance : HPow Q ℕ Q := ⟨fun a k => ⟨a.n ^ k, a.d ^ k⟩⟩

/-- Value comparison of fractions (denominators are positive). -/
def leQ (a b : Q) : Bool := decide (a.n * b.d ≤ b.n * a.d)

def ltQ (a b : Q) : Bool := decide (a.n * b.d < b.n * a.d)

/-- Value equality of fractions (the Python float equality). -/
def eqQ (a b : Q) : Bool := decide (a.n * b.d = b.n * a.d)

instance : LE Q := ⟨fun a b => leQ a b = true⟩

instance : LT Q := ⟨fun a b => ltQ a b = true⟩

instance (a b : Q) : Decidable (a ≤ b) := inferInstanceAs (Decidable (_ = true))

instance (a b : Q) : Decidable (a < b) := inferInstanceAs (Decidable (_ = true))

/-- Python max of two floats (ties keep the first argument). -/
def maxQ (a b : Q) : Q := if a < b then b else a

/-- Python min of two floats (ties keep the first argument). -/
def minQ (a b : Q) : Q := if b < a then b else a

def absQ (a : Q) : Q := ⟨(a.n.natAbs : ℤ), a.d⟩

/-- Floor of the represented value. -/
def floorQ (a : Q) : ℤ := Int.fdiv a.n a.d

def dedupByGo (eq : α → α → Bool) : List α → List α → List α
  | [], acc => acc.reverse
  | x :: t, acc => if acc.any (fun y => eq y x) then dedupByGo eq t acc else dedupByGo eq t (x :: acc)

/-- The distinct elements of a list under an equality test, in order of first
occurrence (the Python set built from floats). -/
def dedupBy (eq : α → α → Bool) (l : List α) : List α := dedupByGo eq l []

/-- First index of a value-equal element (the Python list.index on
floats). -/
def indexOfBy (eq : α → α → Bool) (x : α) : List α → ℕ
  | [] => 0
  | y :: t => if eq x y then 0 else indexOfBy eq x t + 1

/-- First index of an element in a list (the Python list.index). -/
def indexOfL [DecidableEq α] (x : α) : List α → ℕ
  | [] => 0
  | y :: t => if y = x then 0 else indexOfL x t + 1

/-- Does the second list start with the first? -/
def startsWithL : Str → Str → Bool
  | [], _ => true
  | _ :: _, [] => false
  | a :: as2, b :: bs => a = b ∧ startsWithL as2 bs

/-- The Python substring test x in y. -/
def containsSub (pat : Str) : Str → Bool
  | [] => pat.isEmpty
  | c :: t => startsWithL pat (c :: t) ∨ containsSub pat t

/-- Membership of a single character (the Python substring test for a
one-character pattern). -/
def containsChar (c : Char) (l : Str) : Bool := l.any (fun x => x = c)

/-- Number of occurrences of an element (list.count in Python / Counter). -/
def countIn [DecidableEq α] (l : List α) (x : α) : ℕ := (l.filter (fun y => y = x)).length

def firstKeysGo [DecidableEq α] : List α → List α → List α
  | [], acc => acc.reverse
  | x :: t, acc => if x ∈ acc then firstKeysGo t acc else firstKeysGo t (x :: acc)

/-- The distinct elements of a list in order of first occurrence. -/
def firstKeys [DecidableEq α] (l : List α) : List α := firstKeysGo l []

/-- The maximum-count update of most_common: keep the strictly more
frequent key. -/
def mcUpd [DecidableEq α] (l : List α) (acc : Option (α × ℕ)) (k : α) : Option (α × ℕ) :=
  match acc with
  | none => some (k, countIn l k)
  | some (b, bc) =>
    let c := countIn l k
    if bc < c then some (k, c) else some (b, bc)

/-- Counter(l).most_common(1)[0]: the most frequent element with its count,
ties broken by first occurrence; none on the empty list. -/
def mostCommonL [DecidableEq α] (l : List α) : Option (α × ℕ) :=
  (firstKeys l).foldl (mcUpd l) none

def replLGo (pat rep : Str) : ℕ → Str → Str
  | 0, l => l
  | f + 1, l =>
    match l with
    | [] => []
    | c :: rest =>
      if pat ≠ [] ∧ pat.isPrefixOf (c :: rest) then
        rep ++ replLGo pat rep f ((c :: rest).drop pat.length)
      else
        c :: replLGo pat rep f rest

/-- str.replace(pat, rep): replace all non-overlapping occurrences of a
(non-empty) pattern, scanning left to right (the fuel never runs out: every
step consumes at least one character). -/
def replL (pat rep : Str) (l : Str) : Str := replLGo pat rep l.length l

/-- FusionEngine._normalize_comparison_operators (identical to
NumericProcessor.normalize_comparison_operators): rewrite full-width and
half-width comparison operators to ≥ / ≤. -/
def normalizeCompOps (l : Str) : Str :=
  if l = [] then l else
  let r1 := replL ['＞', '='] ['≥'] l
  let r2 := replL ['＜', '='] ['≤'] r1
  let r3 := replL ['＞'] ['≥'] r2
  let r4 := replL ['＜'] ['≤'] r3
  let r5 := replL ['>', '='] ['≥'] r4
  let r6 := replL ['<', '='] ['≤'] r5
  let r7 := replL ['>'] ['≥'] r6
  let r8 := replL ['<'] ['≤'] r7
  r8

/-- The FUSION_TYPES labels declared in config/config.py, together with the
tolerance-fusion label produced by FusionEngine._try_tolerance_fusion
(the spec data model lists it as ToleranceFusion). -/
def exactMatchLabel : Str := "精确匹配".toList

def highSimilarityLabel : Str := "高相似度融合".toList

def mediumSimilarityLabel : Str := "中等相似度融合".toList

def semanticMatchLabel : Str := "语义匹配".toList

def numericRangeLabel : Str := "数字范围融合".toList

def unitConversionLabel : Str := "单位转换融合".toList

def toleranceFusionLabel : Str := "误差融合".toList

def multiValueLabel : Str := "多值融合".toList

def singleSupplierLabel : Str := "单供应商".toList

def conflictResolvedLabel : Str := "冲突解决".toList

def manualReviewLabel : Str := "需人工审核".toList

def insufficientDataLabel : Str := "数据不足".toList

/-- The label returned by NumericProcessor.merge_numeric_values for values
containing ± or 误差 (error-structure fusion); it is not among the declared
FUSION_TYPES. -/
def errorStructLabel : Str := "误差结构融合".toList

/-- The closed set of fusion-type labels declared in the data model
(FUSION_TYPES of config/config.py plus the declared ToleranceFusion label). -/
def declaredFusionLabels : List Str :=
  [exactMatchLabel, highSimilarityLabel, mediumSimilarityLabel,
   semanticMatchLabel, numericRangeLabel, unitConversionLabel,
   toleranceFusionLabel, multiValueLabel, singleSupplierLabel,
   conflictResolvedLabel, manualReviewLabel, insufficientDataLabel]

/-- The decimal digit character for n < 10. -/
def digitChar (n : ℕ) : Char := Char.ofNat (48 + n)

def natDigitsGo : ℕ → ℕ → Str
  | 0, _ => []
  | f + 1, n => if n < 10 then [digitChar n] else natDigitsGo f (n / 10) ++ [digitChar (n % 10)]

/-- Decimal digits of a natural number. -/
def natDigits (n : ℕ) : Str := natDigitsGo (n + 1) n

/-- Decimal expansion of a rational in [0, 1), up to the given number of
digits (enough for every finite decimal arising in this development). -/
def fracDigits : ℕ → Q → Str
  | 0, _ => []
  | f + 1, r =>
    let r10 := r * 10
    let d := (floorQ r10).toNat
    let rest := r10 - Q.ofInt (floorQ r10)
    digitChar d :: (if eqQ rest 0 then [] else fracDigits f rest)

def fmtGAux (q : Q) : Str :=
  let ip := (floorQ q).toNat
  let fr := q - Q.ofInt (floorQ q)
  natDigits ip ++ (if eqQ fr 0 then [] else '.' :: fracDigits 20 fr)

/-- Python format spec g as used on the short finite decimals of this
development: integer values print without a decimal point, fractional values
with their (trailing-zero-free) decimal expansion. -/
def fmtG (q : Q) : Str := if ltQ q 0 then '-' :: fmtGAux (-q) else fmtGAux q

def fmtStrAux (q : Q) : Str :=
  let ip := (floorQ q).toNat
  let fr := q - Q.ofInt (floorQ q)
  natDigits ip ++ '.' :: (if eqQ fr 0 then ['0'] else fracDigits 20 fr)

/-- Python str() of a float as used on the short finite decimals of this
development: str(5.0) is 5.0, str(0.5) is 0.5. -/
def fmtStr (q : Q) : Str := if ltQ q 0 then '-' :: fmtStrAux (-q) else fmtStrAux q

/-- Python round(q, d), embedded as round-half-up on exact rationals (the
float version rounds half to even; the two agree away from exact ties, and no
exact tie arises in this development). -/
def roundQ (d : ℕ) (q : Q) : Q := ⟨floorQ (q * (10 : Q) ^ d + (1 : Q) / 2), 10 ^ d⟩

/-- Value of a list of decimal digit characters. -/
def natOfDigits (l : Str) : ℕ := l.foldl (fun a c => a * 10 + (c.toNat - 48)) 0

/-- Python float() of a matched numeric group of shape digits[,digits]*[.digits*]
(thousands separators already allowed; they are stripped before parsing). -/
def parseNumStr (l : Str) : Q :=
  let noComma := l.filter (fun c => c ≠ ',')
  let ip := noComma.takeWhile Char.isDigit
  let rest := noComma.dropWhile Char.isDigit
  let fp := match rest with
    | '.' :: r => r
    | _ => []
  (⟨(natOfDigits ip : ℤ), 1⟩ : Q) + (⟨(natOfDigits fp : ℤ), 1⟩ : Q) / ((10 : Q) ^ fp.length)

/-- Modelled from the spec: the sentinel no-data placeholder values
(NEGATIVE_WORDS of the missing config/synonyms.py); spec section 4.6 step 1
drops empty and sentinel no-data placeholder values. -/
def negativeWords : List Str :=
  ["无".toList, "暂无".toList, "无数据".toList, "待定".toList,
   "N/A".toList, "n/a".toList, "/".toList, "-".toList, "—".toList]

/-- Modelled from the spec: the optional modifier words stripped by the text
normalizer (MODIFIER_WORDS of the missing config/synonyms.py); every call
site in the embedded claims passes remove_modifiers = false. -/
def modifierWords : List Str :=
  ["大约".toList, "左右".toList, "约".toList]

/-- Modelled from the spec: the range keywords of isRangeLike
(RANGE_KEYWORDS of the missing config/synonyms.py). -/
def rangeKeywords : List Str :=
  ["~".toList, "～".toList, "至".toList, "到".toList, "范围".toList]

def collapseWsGo : Str → Bool → Str
  | [], _ => []
  | c :: t, prevSpace =>
    if isPySpace c then
      (if prevSpace then collapseWsGo t true else ' ' :: collapseWsGo t true)
    else c :: collapseWsGo t false

/-- re.sub of a whitespace run by a single space. -/
def collapseWs (l : Str) : Str := collapseWsGo l false

/-- TextProcessor.normalize_text: empty/negative-word guard, strip, lower,
whitespace collapse, optional modifier-word removal, final strip. -/
def normalizeText (text : Str) (removeModifiers : Bool) : Str :=
  if text = [] ∨ text ∈ negativeWords then [] else
  let t1 := trimL text
  let t2 := lowerL t1
  let t3 := collapseWs t2
  let t4 := if removeModifiers then modifierWords.foldl (fun s w => replL w [] s) t3 else t3
  trimL t4

/-- TextProcessor.remove_punctuation: keep word characters only. -/
def removePunctuation (l : Str) : Str := l.filter isWordC

/-- TextProcessor.calculate_similarity for one metric: both texts normalized,
0 on an empty input; the metric itself (fuzzywuzzy) is an external library
and is passed as a function. -/
def calcSimilarity (f : Str → Str → Q) (t1 t2 : Str) : Q :=
  if t1 = [] ∨ t2 = [] then (0 : Q) else f (normalizeText t1 false) (normalizeText t2 false)

/-- TextProcessor.has_keyword: some keyword occurs case-insensitively. -/
def hasKeywordB (text : Str) (kws : List Str) : Bool :=
  kws.any (fun k => containsSub (lowerL k) (lowerL text))

def splitWsGo : Str → Str → List Str
  | [], acc => if acc = [] then [] else [acc.reverse]
  | c :: t, acc =>
    if isPySpace c then
      (if acc = [] then splitWsGo t [] else acc.reverse :: splitWsGo t [])
    else splitWsGo t (c :: acc)

/-- Python str.split() with no argument: split on whitespace runs. -/
def splitWs (l : Str) : List Str := splitWsGo l []

/-- Length of the longest common prefix. -/
def lcpLen : Str → Str → ℕ
  | a :: as2, b :: bs => if a = b then lcpLen as2 bs + 1 else 0
  | _, _ => 0

/-- difflib.SequenceMatcher.find_longest_match on full strings: the longest
matching block, ties resolved toward the smallest start in a then in b (the
strings of this development are far below the autojunk threshold, so no junk
heuristic applies). -/
def bestMatch (a b : Str) : ℕ × ℕ × ℕ :=
  (List.range a.length).foldl
    (fun acc i =>
      (List.range b.length).foldl
        (fun acc2 j =>
          let k := lcpLen (a.drop i) (b.drop j)
          if acc2.2.2 < k then (i, j, k) else acc2)
        acc)
    (0, 0, 0)

/-- Total size of the difflib matching blocks (the recursion of
get_matching_blocks), with fuel; fuel a.length + b.length + 1 suffices since
every recursive split removes at least the matched block. -/
def matchSumFuel : ℕ → Str → Str → ℕ
  | 0, _, _ => 0
  | f + 1, a, b =>
    let m := bestMatch a b
    if m.2.2 = 0 then 0
    else
      matchSumFuel f (a.take m.1) (b.take m.2.1) + m.2.2 +
        matchSumFuel f (a.drop (m.1 + m.2.2)) (b.drop (m.2.1 + m.2.2))

/-- difflib.SequenceMatcher(None, a, b).ratio(). -/
def seqRatio (a b : Str) : Q :=
  if a.length + b.length = 0 then 1
  else
    (⟨(2 * matchSumFuel (a.length + b.length + 1) a b : ℤ), 1⟩ : Q) /
      ⟨(a.length + b.length : ℤ), 1⟩

/-- The latin-script unit characters of the regex class a-zA-Z °℃μ/ used by
the extractor. -/
def isLatinUnitChar (c : Char) : Bool :=
  c.isAlpha ∨ c = '°' ∨ c = '℃' ∨ c = 'μ' ∨ c = '/'

/-- The characters allowed immediately before an explicit sign
(whitespace or a comparison symbol, the regex class \s≥≤><=). -/
def isSignPre (c : Char) : Bool :=
  isPySpace c ∨ c = '≥' ∨ c = '≤' ∨ c = '>' ∨ c = '<' ∨ c = '='

def isDigitComma (c : Char) : Bool := c.isDigit ∨ c = ','

/-- Matcher for the numeric group \d+[,\d]*\.?\d* (greedy); returns the
matched characters and the remainder, none if the input does not start with a
digit. -/
def numCore (l : Str) : Option (Str × Str) :=
  match l with
  | c :: _ =>
    if c.isDigit then
      let d1 := l.takeWhile Char.isDigit
      let r1 := l.dropWhile Char.isDigit
      let d2 := r1.takeWhile isDigitComma
      let r2 := r1.dropWhile isDigitComma
      match r2 with
      | '.' :: r3 =>
        some (d1 ++ d2 ++ '.' :: r3.takeWhile Char.isDigit, r3.dropWhile Char.isDigit)
      | _ => some (d1 ++ d2, r2)
    else none
  | [] => none

/-- Matcher for the unit group a-zA-Z°℃μ/ one-or-more, or CJK one-or-more;
returns an empty match when neither alternative applies (the group is
optional at every use site except inside parentheses). -/
def unitMatch (l : Str) : Str × Str :=
  let lat := l.takeWhile isLatinUnitChar
  if lat.isEmpty then (l.takeWhile isCJK, l.dropWhile isCJK)
  else (lat, l.dropWhile isLatinUnitChar)

/-- A numeric token of the extractor: value, unit, original span,
parenthesized-unit flag (the NumericToken of the spec data model). -/
structure NumInfo where
  value : Q
  unit : Str
  original : Str
  hasParenUnit : Bool
deriving DecidableEq, Repr

/-- Generic embedding of re.finditer: scan left to right, on a match record
(start, payload, length) and continue after the match (all matchers consume
at least one character), else advance one position. -/
def scanMatches (m : Str → Option (α × Str)) : ℕ → ℕ → Str → List (ℕ × α × ℕ)
  | 0, _, _ => []
  | f + 1, pos, l =>
    match l with
    | [] => []
    | _ :: t =>
      match m l with
      | some (a, rest) =>
        let len := l.length - rest.length
        (pos, a, len) :: scanMatches m f (pos + len) rest
      | none => scanMatches m f (pos + 1) t

/-- Phase-1 pattern of extract_numeric_info: number, range dash (-, ~ or 至),
number, parenthesized unit.  Payload: first group, second group, unit,
matched span. -/
def matchP1 (l : Str) : Option ((Str × Str × Str × Str) × Str) :=
  match numCore l with
  | none => none
  | some (g1, r1) =>
    match r1.dropWhile isPySpace with
    | c :: r3 =>
      if c = '-' ∨ c = '~' ∨ c = '至' then
        let r4 := r3.dropWhile isPySpace
        match numCore r4 with
        | none => none
        | some (g2, r5) =>
          match r5.dropWhile isPySpace with
          | '(' :: r7 =>
            let r8 := r7.dropWhile isPySpace
            let u := (unitMatch r8).1
            if u.isEmpty then none else
            match (unitMatch r8).2.dropWhile isPySpace with
            | ')' :: r11 => some ((g1, g2, u, l.take (l.length - r11.length)), r11)
            | _ => none
          | _ => none
      else none
    | [] => none

/-- Phase-2 pattern: single number with parenthesized unit.  Payload: number
group, unit, matched span. -/
def matchP2 (l : Str) : Option ((Str × Str × Str) × Str) :=
  match numCore l with
  | none => none
  | some (g1, r1) =>
    match r1.dropWhile isPySpace with
    | '(' :: r3 =>
      let r4 := r3.dropWhile isPySpace
      let u := (unitMatch r4).1
      if u.isEmpty then none else
      match (unitMatch r4).2.dropWhile isPySpace with
      | ')' :: r7 => some ((g1, u, l.take (l.length - r7.length)), r7)
      | _ => none
    | _ => none

def isParenContentChar (c : Char) : Bool :=
  c.isDigit ∨ isPySpace c ∨ c = '-' ∨ c = '.' ∨ c = ','

/-- The pattern building the parenthesized-number-to-unit map of phase 3:
parenthesized run of digits, spaces, dashes, dots and commas followed by a
unit.  Payload: content group, unit. -/
def matchPM (l : Str) : Option ((Str × Str) × Str) :=
  match l with
  | '(' :: r1 =>
    let content := r1.takeWhile isParenContentChar
    if content.isEmpty then none else
    match r1.dropWhile isParenContentChar with
    | ')' :: r3 =>
      let r4 := r3.dropWhile isPySpace
      let u := (unitMatch r4).1
      if u.isEmpty then none else some ((content, trimL u), (unitMatch r4).2)
    | _ => none
  | _ => none

/-- Phase-3 pattern: plain number with an optional unit (no sign, so a range
dash is never read as a minus).  Payload: number group, unit group (possibly
empty), matched span. -/
def matchP3 (l : Str) : Option ((Str × Str × Str) × Str) :=
  match numCore l with
  | none => none
  | some (g1, r1) =>
    let r2 := r1.dropWhile isPySpace
    let (u, r3) := unitMatch r2
    some ((g1, u, l.take (l.length - r3.length)), r3)

/-- Phase-4 pattern: an explicit sign (preceded by whitespace or a comparison
symbol, followed directly by digits) with number and optional unit.
Payload: sign, number group, unit group, matched span. -/
def matchP4 (l : Str) : Option ((Char × Str × Str × Str) × Str) :=
  match l with
  | c :: s :: rest =>
    if isSignPre c ∧ (s = '-' ∨ s = '+') then
      match numCore rest with
      | none => none
      | some (g, r1) =>
        let r2 := r1.dropWhile isPySpace
        let (u, r3) := unitMatch r2
        some ((s, g, u, l.take (l.length - r3.length)), r3)
    else none
  | _ => none

/-- Insert-or-update for a Python dict keyed by strings (insertion order
kept, later values overwrite). -/
def upsert (k : Str) (v : β) : List (Str × β) → List (Str × β)
  | [] => [(k, v)]
  | (k0, v0) :: t => if k0 = k then (k0, v) :: t else (k0, v0) :: upsert k v t

def p1MatchesOf (l : Str) : List (ℕ × (Str × Str × Str × Str) × ℕ) :=
  scanMatches matchP1 l.length 0 l

def p1StartsOf (l : Str) : List ℕ := (p1MatchesOf l).map (fun x => x.1)

def p1InfosOf (l : Str) : List NumInfo :=
  (p1MatchesOf l).flatMap (fun x =>
    [⟨parseNumStr x.2.1.1, trimL x.2.1.2.2.1, trimL x.2.1.2.2.2, true⟩,
     ⟨parseNumStr x.2.1.2.1, trimL x.2.1.2.2.1, trimL x.2.1.2.2.2, true⟩])

def p2MatchesOf (l : Str) : List (ℕ × (Str × Str × Str) × ℕ) :=
  (scanMatches matchP2 l.length 0 l).filter (fun x => x.1 ∉ p1StartsOf l)

def p2InfosOf (l : Str) : List NumInfo :=
  (p2MatchesOf l).map (fun x =>
    ⟨parseNumStr x.2.1.1, trimL x.2.1.2.1, trimL x.2.1.2.2, true⟩)

/-- The processed start positions after phases 1 and 2. -/
def processedOf (l : Str) : List ℕ :=
  p1StartsOf l ++ (p2MatchesOf l).map (fun x => x.1)

def parenMapOf (l : Str) : List (Str × Str) :=
  (scanMatches matchPM l.length 0 l).foldl (fun m x => upsert x.2.1.1 x.2.1.2 m) []

def p3InfosOf (l : Str) : List NumInfo :=
  ((scanMatches matchP3 l.length 0 l).filter (fun x => x.1 ∉ processedOf l)).map
    (fun x =>
      let valueStr := x.2.1.1.filter (fun c => c ≠ ',')
      match (parenMapOf l).find? (fun p =>
          containsSub valueStr (p.1.filter (fun c => ¬(c = ' ' ∨ c = '.')))) with
      | some p => ⟨parseNumStr x.2.1.1, trimL p.2, trimL x.2.1.2.2, true⟩
      | none => ⟨parseNumStr x.2.1.1, trimL x.2.1.2.1, trimL x.2.1.2.2, false⟩)

def p4InfosOf (l : Str) : List NumInfo :=
  (scanMatches matchP4 l.length 0 l).map (fun x =>
    let mag := parseNumStr x.2.1.2.1
    ⟨if x.2.1.1 = '-' then -mag else mag, trimL x.2.1.2.2.1, trimL x.2.1.2.2.2, false⟩)

/-- NumericProcessor.extract_numeric_info: the four phases in source order
(paren ranges, single paren numbers, plain numbers, explicit negatives). -/
def extractNumericInfo (l : Str) : List NumInfo :=
  p1InfosOf l ++ p2InfosOf l ++ p3InfosOf l ++ p4InfosOf l

/-- A unit category of the Unit Table: name, base unit, conversion factors
(unit to factor relative to the base unit). -/
structure UnitCat where
  name : Str
  baseUnit : Str
  convs : List (Str × Q)
deriving DecidableEq, Repr

/-- An electrical sub-type of the Unit Table (the spec: some categories, e.g.
electrical, have sub-types, each with its own base unit and factor table). -/
structure ElecSub where
  subName : Str
  baseUnit : Str
  convs : List (Str × Q)
deriving DecidableEq, Repr

/-- Modelled from the spec: the non-electrical categories of the Unit Table
(MEDICAL_UNITS of the missing config/synonyms.py).  The spec fixes mass
(5kg = 5000g = 5公斤), the frequency/time incompatibility (Hz vs seconds) and
the affine temperature category; factors are relative to an implicit base
unit. -/
def normalCats : List UnitCat :=
  [⟨"质量类".toList, "kg".toList,
    [("kg".toList, 1), ("公斤".toList, 1), ("g".toList, 1/1000),
     ("mg".toList, 1/1000000), ("t".toList, 1000)]⟩,
   ⟨"长度类".toList, "mm".toList,
    [("mm".toList, 1), ("毫米".toList, 1), ("cm".toList, 10),
     ("厘米".toList, 10), ("m".toList, 1000), ("米".toList, 1000)]⟩,
   ⟨"时间类".toList, "s".toList,
    [("s".toList, 1), ("秒".toList, 1), ("ms".toList, 1/1000),
     ("min".toList, 60), ("分钟".toList, 60), ("h".toList, 3600),
     ("小时".toList, 3600)]⟩,
   ⟨"频率类".toList, "Hz".toList,
    [("Hz".toList, 1), ("kHz".toList, 1000), ("MHz".toList, 1000000)]⟩,
   ⟨"功率类".toList, "W".toList,
    [("W".toList, 1), ("kW".toList, 1000), ("mW".toList, 1/1000)]⟩,
   ⟨"体积类".toList, "L".toList,
    [("L".toList, 1), ("升".toList, 1), ("mL".toList, 1/1000),
     ("毫升".toList, 1/1000)]⟩,
   ⟨"温度类".toList, "℃".toList,
    [("℃".toList, 1), ("°C".toList, 1), ("C".toList, 1), ("摄氏度".toList, 1),
     ("°F".toList, 1), ("F".toList, 1), ("华氏度".toList, 1)]⟩]

/-- Modelled from the spec: the electrical sub-types of the Unit Table. -/
def elecSubs : List ElecSub :=
  [⟨"电压".toList, "V".toList, [("V".toList, 1), ("mV".toList, 1/1000), ("kV".toList, 1000)]⟩,
   ⟨"电流".toList, "A".toList, [("A".toList, 1), ("mA".toList, 1/1000)]⟩]

def catHasUnit (cat : UnitCat) (ul : Str) : Bool :=
  cat.convs.any (fun p => lowerL p.1 = ul)

def elecHasUnit (sub : ElecSub) (ul : Str) : Bool :=
  sub.convs.any (fun p => lowerL p.1 = ul)

/-- NumericProcessor.identify_unit_category: case-insensitive lookup across
all categories; electrical sub-types answer with category_subtype. -/
def identifyUnitCategory (u : Str) : Option Str :=
  if u.isEmpty then none else
  let ul := lowerL u
  match normalCats.find? (fun cat => catHasUnit cat ul) with
  | some cat => some cat.name
  | none =>
    match elecSubs.find? (fun sub => elecHasUnit sub ul) with
    | some sub => some ("电学类_".toList ++ sub.subName)
    | none => none

/-- Case-insensitive factor lookup (the conversions_lower dict). -/
def lookupCI (convs : List (Str × Q)) (u : Str) : Option Q :=
  (convs.find? (fun p => lowerL p.1 = lowerL u)).map (fun p => p.2)

/-- category.split(underscore)[0] -/
def catBaseOf (c : Str) : Str := c.takeWhile (fun x => x ≠ '_')

/-- The conversion table of a category name produced by
identify_unit_category (electrical names carry their sub-type). -/
def getConvsFor (c : Str) : Option (List (Str × Q)) :=
  if catBaseOf c = "电学类".toList then
    (elecSubs.find? (fun sub => sub.subName = (c.dropWhile (fun x => x ≠ '_')).drop 1)).map
      (fun s => s.convs)
  else
    (normalCats.find? (fun cat => cat.name = c)).map (fun cat => cat.convs)

def celsiusUnits : List Str :=
  ["℃".toList, "°C".toList, "C".toList, "摄氏度".toList]

def fahrenheitUnits : List Str :=
  ["°F".toList, "F".toList, "华氏度".toList]

/-- NumericProcessor._convert_temperature: affine Celsius-Fahrenheit formulas
(membership tested against the literal spellings, as in the source). -/
def convertTemperature (v : Q) (fu tu : Str) : Q :=
  if fu ∈ celsiusUnits ∧ tu ∉ celsiusUnits then roundQ 2 (v * 9 / 5 + 32)
  else if fu ∉ celsiusUnits ∧ tu ∈ celsiusUnits then roundQ 2 ((v - 32) * 5 / 9)
  else v

/-- NumericProcessor.convert_unit: none on an unknown unit or a category
mismatch, affine conversion for temperature, factor quotient rounded to 4
decimals otherwise. -/
def convertUnit (v : Q) (fu tu : Str) : Option Q :=
  match identifyUnitCategory fu, identifyUnitCategory tu with
  | some fc, some tc =>
    if fc = tc then
      match getConvsFor fc with
      | some convs =>
        match lookupCI convs fu, lookupCI convs tu with
        | some ff, some tf =>
          if catBaseOf fc = "温度类".toList then some (convertTemperature v fu tu)
          else some (roundQ 4 (v * ff / tf))
        | _, _ => none
      | none => none
    else none
  | _, _ => none

/-- Does the list start with a digit? -/
def headDigit (l : Str) : Bool :=
  match l with
  | d :: _ => d.isDigit
  | [] => false

/-- Search semantics of re.search: the at-position matcher succeeds at some
suffix. -/
def anySuffix (m : Str → Bool) : Str → Bool
  | [] => m []
  | c :: t => m (c :: t) ∨ anySuffix m t

/-- Case-insensitive literal prefix (pattern given in lowercase); returns the
remainder on success. -/
def dropCI : Str → Str → Option Str
  | [], l => some l
  | _ :: _, [] => none
  | p :: ps, c :: cs => if lowerC c = p then dropCI ps cs else none

/-- Exact literal prefix; returns the remainder on success. -/
def dropLit : Str → Str → Option Str
  | [], l => some l
  | _ :: _, [] => none
  | p :: ps, c :: cs => if c = p then dropLit ps cs else none

def quoteChar : Char := Char.ofNat 34

def aposChar : Char := Char.ofNat 39

/-- The length-unit alternation of the first dimension pattern: mm, cm, in
(case-insensitive), double quote, apostrophe, 英寸, or a literal dot. -/
def dimUnitAlt (l : Str) : Option Str :=
  match dropCI "mm".toList l with
  | some r => some r
  | none =>
  match dropCI "cm".toList l with
  | some r => some r
  | none =>
  match dropCI "in".toList l with
  | some r => some r
  | none =>
  match l with
  | c :: t =>
    if c = quoteChar ∨ c = aposChar ∨ c = '.' then some t
    else dropLit "英寸".toList l
  | [] => none

def takeDigits1 (l : Str) : Option Str :=
  match l with
  | c :: _ => if c.isDigit then some (l.dropWhile Char.isDigit) else none
  | [] => none

/-- First dimension pattern: digits, length unit, dimension separator
(times-sign, x, asterisk or slash, case-insensitively also X), digits. -/
def dim1At (l : Str) : Bool :=
  match takeDigits1 l with
  | none => false
  | some r1 =>
  match dimUnitAlt (r1.dropWhile isPySpace) with
  | none => false
  | some r2 =>
  match r2.dropWhile isPySpace with
  | c :: t =>
    (c = '×' ∨ c = 'x' ∨ c = 'X' ∨ c = '*' ∨ c = '/') ∧ headDigit (t.dropWhile isPySpace)
  | [] => false

/-- Second dimension pattern: digits, asterisk, digits, 像素 or pixel. -/
def dim2At (l : Str) : Bool :=
  match takeDigits1 l with
  | none => false
  | some r1 =>
  match r1.dropWhile isPySpace with
  | '*' :: t =>
    (match takeDigits1 (t.dropWhile isPySpace) with
     | none => false
     | some r2 =>
       let r3 := r2.dropWhile isPySpace
       (dropLit "像素".toList r3).isSome ∨ (dropCI "pixel".toList r3).isSome)
  | _ => false

/-- Third dimension pattern: digits, times-sign, x or asterisk (this search
is case-sensitive in the source), digits. -/
def dim3At (l : Str) : Bool :=
  match takeDigits1 l with
  | none => false
  | some r1 =>
  match r1.dropWhile isPySpace with
  | c :: t =>
    (c = '×' ∨ c = 'x' ∨ c = '*') ∧ headDigit (t.dropWhile isPySpace)
  | [] => false

/-- The plain range pattern digits-dash-digits excluding dimension reading. -/
def plainRangeAt (l : Str) : Bool :=
  match takeDigits1 l with
  | none => false
  | some r1 =>
  match r1 with
  | '-' :: d :: _ => d.isDigit
  | _ => false

/-- NumericProcessor.is_dimension_specification. -/
def isDimensionSpecification (l : Str) : Bool :=
  if l = [] then false
  else if anySuffix dim1At l then true
  else if anySuffix dim2At l then true
  else if anySuffix dim3At l then ¬ anySuffix plainRangeAt l
  else false

/-- The CPU/GPU/generation model keywords of has_model_keywords. -/
def modelKeywords : List Str :=
  ["i3".toList, "i5".toList, "i7".toList, "i9".toList, "intel".toList,
   "amd".toList, "ryzen".toList, "xeon".toList, "pentium".toList,
   "rtx".toList, "gtx".toList, "tesla".toList, "radeon".toList, "rx".toList,
   "arc".toList, "代".toList, "第".toList]

/-- NumericProcessor.has_model_keywords. -/
def hasModelKeywords (l : Str) : Bool :=
  if l = [] then false
  else modelKeywords.any (fun k => containsSub k (lowerL l))

/-- The tolerance-unit alternation percent, dB (case-insensitive), ℃, °C
(case-insensitive); returns the matched spelling and remainder. -/
def tolUnitAlt (l : Str) : Option (Str × Str) :=
  match l with
  | '%' :: t => some (['%'], t)
  | _ =>
  match l with
  | a :: b :: t =>
    if lowerC a = 'd' ∧ lowerC b = 'b' then some ([a, b], t)
    else if a = '℃' then some (['℃'], b :: t)
    else if a = '°' ∧ lowerC b = 'c' then some ([a, b], t)
    else none
  | ['℃'] => some (['℃'], [])
  | _ => none

/-- First error-tolerance pattern: sign character, digits with optional
fraction, tolerance unit. -/
def errTol1At (l : Str) : Bool :=
  match l with
  | c :: t =>
    if c = '±' ∨ c = '+' ∨ c = '-' then
      match takeDigits1 (t.dropWhile isPySpace) with
      | none => false
      | some r1 =>
        let r2 := match r1 with
          | '.' :: d :: r3 => if d.isDigit then (d :: r3).dropWhile Char.isDigit else r1
          | _ => r1
        (tolUnitAlt (r2.dropWhile isPySpace)).isSome
    else false
  | [] => false

/-- Second error-tolerance pattern: digits followed by percent or a sign. -/
def errTol2At (l : Str) : Bool :=
  match takeDigits1 l with
  | none => false
  | some r1 =>
  match r1.dropWhile isPySpace with
  | c :: _ => c = '%' ∨ c = '±' ∨ c = '+' ∨ c = '-'
  | [] => false

/-- NumericProcessor.is_error_tolerance. -/
def isErrorTolerance (l : Str) : Bool :=
  if l = [] then false
  else if anySuffix errTol1At l then true
  else
    anySuffix errTol2At l ∧
      l.any (fun c => c = '%' ∨ c = '℃' ∨ lowerC c = 'd' ∨ lowerC c = 'b')

/-- NumericProcessor.is_numeric: the text contains a digit. -/
def isNumericB (l : Str) : Bool := l.any Char.isDigit

/-- The range pattern digits, dash or tilde or 符, digits. -/
def rangePatAt (l : Str) : Bool :=
  match takeDigits1 l with
  | none => false
  | some r1 =>
  match r1.dropWhile isPySpace with
  | c :: t =>
    (c = '-' ∨ c = '~' ∨ c = '符') ∧ headDigit (t.dropWhile isPySpace)
  | [] => false

/-- NumericProcessor.is_range_value: a range keyword occurs or the
digits-dash-digits pattern matches. -/
def isRangeValue (l : Str) : Bool :=
  rangeKeywords.any (fun k => containsSub k l) ∨ anySuffix rangePatAt l

/-- The default numeric token used for total list indexing. -/
def defaultNumInfo : NumInfo := ⟨0, [], [], false⟩

/-- Truthiness of the (result, type) pair returned by the strategies: the
Python if result drops an empty result string. -/
def truthyOpt : Option (Str × Str) → Option (Str × Str)
  | some (r, t) => if r = [] then none else some (r, t)
  | none => none

/-- Matcher for the tolerance numeric group (digits, optional fraction). -/
def numNoComma (l : Str) : Option (Str × Str) :=
  match l with
  | c :: _ =>
    if c.isDigit then
      let d1 := l.takeWhile Char.isDigit
      let r1 := l.dropWhile Char.isDigit
      match r1 with
      | '.' :: r2 => some (d1 ++ '.' :: r2.takeWhile Char.isDigit, r2.dropWhile Char.isDigit)
      | _ => some (d1, r1)
    else none
  | [] => none

def isTolSignChar (c : Char) : Bool := c = '±' ∨ c = '+' ∨ c = '-' ∨ c = '/'

/-- First tolerance pattern of _try_tolerance_fusion: a run of sign
characters, a number, an optional tolerance unit.  Payload: number group,
unit group (possibly empty). -/
def matchTol1 (l : Str) : Option ((Str × Str) × Str) :=
  let run := l.takeWhile isTolSignChar
  if run.isEmpty then none else
  let r1 := (l.dropWhile isTolSignChar).dropWhile isPySpace
  match numNoComma r1 with
  | none => none
  | some (g, r2) =>
    let r3 := r2.dropWhile isPySpace
    match tolUnitAlt r3 with
    | some (u, r4) => some ((g, u), r4)
    | none => some ((g, []), r3)

/-- Second tolerance pattern: ≤ or <, optional signs, a number, an optional
tolerance unit. -/
def matchTol2 (l : Str) : Option ((Str × Str) × Str) :=
  match l with
  | c :: t =>
    if c = '≤' ∨ c = '<' then
      let r1 := ((t.dropWhile isPySpace).dropWhile isTolSignChar).dropWhile isPySpace
      match numNoComma r1 with
      | none => none
      | some (g, r2) =>
        let r3 := r2.dropWhile isPySpace
        match tolUnitAlt r3 with
        | some (u, r4) => some ((g, u), r4)
        | none => some ((g, []), r3)
    else none
  | [] => none

/-- Third tolerance pattern: the word 误差, a run of characters that are
neither ± nor digits, optional ± signs, a number, an optional unit. -/
def matchTol3 (l : Str) : Option ((Str × Str) × Str) :=
  match dropLit "误差".toList l with
  | none => none
  | some r1 =>
    let r2 := r1.dropWhile (fun c => ¬(c = '±' ∨ c.isDigit))
    let r3 := (r2.dropWhile (fun c => c = '±')).dropWhile isPySpace
    match numNoComma r3 with
    | none => none
    | some (g, r4) =>
      let r5 := r4.dropWhile isPySpace
      match tolUnitAlt r5 with
      | some (u, r6) => some ((g, u), r6)
      | none => some ((g, []), r5)

/-- re.findall of the three tolerance patterns, in source order. -/
def tolMatchesOf (v : Str) : List (Str × Str) :=
  (scanMatches matchTol1 v.length 0 v).map (fun x => x.2.1) ++
    (scanMatches matchTol2 v.length 0 v).map (fun x => x.2.1) ++
    (scanMatches matchTol3 v.length 0 v).map (fun x => x.2.1)

/-- The per-match update of _try_tolerance_fusion: keep the strictly larger
magnitude (so the first maximal match keeps its unit; a missing unit group
defaults to percent). -/
def tolUpd (a : Option (Q × Str)) (p : Str × Str) : Option (Q × Str) :=
  let ev := parseNumStr p.1
  let u := if p.2 = [] then ['%'] else p.2
  match a with
  | none => some (ev, u)
  | some (m, _) => if ltQ m ev then some (ev, u) else a

/-- The per-value step of _try_tolerance_fusion: skip blank values, fold the
update over the value tolerance matches. -/
def tolStep (acc : Option (Q × Str)) (val : Str) : Option (Q × Str) :=
  let vs := trimL val
  if vs = [] then acc else (tolMatchesOf vs).foldl tolUpd acc

/-- FusionEngine._try_tolerance_fusion: the maximum tolerance magnitude over
all values, formatted ≤±max-unit. -/
def tryToleranceFusion (data : List Str) : Option (Str × Str) :=
  match data.foldl tolStep none with
  | some (m, u) => some ("≤±".toList ++ fmtG m ++ u, toleranceFusionLabel)
  | none => none

/-- merge_numeric_values error-structure detection: a value contains ± or
误差. -/
def hasErrStruct (values : List Str) : Bool :=
  values.any (fun v => containsChar '±' v ∨ containsSub "误差".toList v)

/-- The maximal extracted value with its unit (strict updates keep the first
maximum). -/
def maxTokOf (toks : List NumInfo) : Option (Q × Str) :=
  toks.foldl
    (fun acc t =>
      match acc with
      | none => some (t.value, t.unit)
      | some (m, _) => if ltQ m t.value then some (t.value, t.unit) else acc)
    none

def firstDigitIdxGo : Str → ℕ → Option ℕ
  | [], _ => none
  | c :: t, i => if c.isDigit then some i else firstDigitIdxGo t (i + 1)

/-- The leading characters stripped from a numeric prefix (the regex class
whitespace ：:、第°No dashes ≥≤><=). -/
def isLeadPrefChar (c : Char) : Bool :=
  isPySpace c ∨ c = '：' ∨ c = ':' ∨ c = '、' ∨ c = '第' ∨ c = '°' ∨ c = 'N' ∨
    c = 'o' ∨ c = '-' ∨ c = '–' ∨ c = '—' ∨ c = '≥' ∨ c = '≤' ∨ c = '>' ∨
    c = '<' ∨ c = '='

/-- The trailing characters stripped from a numeric prefix. -/
def isTrailPrefChar (c : Char) : Bool :=
  c = '≥' ∨ c = '≤' ∨ c = '>' ∨ c = '<' ∨ c = '=' ∨ c = '-' ∨ c = '：' ∨ c = ':'

def geEqWords : List Str :=
  ["不小于".toList, "不少于".toList, "至少".toList, "不低于".toList,
   "大于等于".toList, "≥0".toList]

def leEqWords : List Str :=
  ["不大于".toList, "不超过".toList, "最多".toList, "不高于".toList,
   "小于等于".toList, "≤0".toList]

def gtWords : List Str := ["大于".toList, "超过".toList, "高于".toList, ">".toList]

def ltWords : List Str := ["小于".toList, "低于".toList, "<".toList]

/-- NumericProcessor.normalize_text_prefix: map verbal comparators to ≥ / ≤,
otherwise return the prefix unchanged. -/
def normalizePrefWord (p : Str) : Str :=
  if p = [] then [] else
  let pl := lowerL (trimL p)
  if geEqWords.any (fun k => containsSub k pl) then ['≥']
  else if leEqWords.any (fun k => containsSub k pl) then ['≤']
  else if gtWords.any (fun k => containsSub k pl) then ['≥']
  else if ltWords.any (fun k => containsSub k pl) then ['≤']
  else p

/-- The textual fragment preceding the first digit of a value, cleaned as in
merge_numeric_values (canonicalize operators, strip leading and trailing
operator runs, drop pure-operator fragments, normalize verbal comparators). -/
def prefWordOf (v : Str) : Option Str :=
  match firstDigitIdxGo v 0 with
  | none => none
  | some i =>
    let t0 := trimL (v.take i)
    let t1 := normalizeCompOps t0
    let t2 := trimL (t1.dropWhile isLeadPrefChar)
    let t3 := trimL ((t2.reverse.dropWhile isTrailPrefChar).reverse)
    if t3 = [] then none
    else if t3.all isTrailPrefChar then none
    else some (normalizePrefWord t3)

def insertSorted (x : Q) : List Q → List Q
  | [] => [x]
  | y :: t => if leQ x y then x :: y :: t else y :: insertSorted x t

/-- Python sorted() on rationals. -/
def sortAsc (l : List Q) : List Q := l.foldr insertSorted []

def maxQD : List Q → Q
  | [] => 0
  | x :: t => t.foldl maxQ x

def minQD : List Q → Q
  | [] => 0
  | x :: t => t.foldl minQ x

/-- NumericProcessor.format_range. -/
def formatRange (mn mx : Q) (unit pre : Str) : Str :=
  if pre ≠ [] then pre ++ '(' :: fmtG mn ++ '-' :: fmtG mx ++ ')' :: unit
  else '(' :: fmtG mn ++ '-' :: fmtG mx ++ ')' :: unit

/-- The error-structure path of merge_numeric_values: when a value carries ±
or 误差, answer the maximal extracted token with its unit. -/
def mergeErrPath (values : List Str) : Option (Str × Str) :=
  if hasErrStruct values then
    match maxTokOf ((values.map trimL).flatMap extractNumericInfo) with
    | some (m, u) => some (fmtG m ++ u, errorStructLabel)
    | none => none
  else none

/-- The token-selection pipeline of merge_numeric_values: range restriction,
noise filtering against half the median, threshold collapse to the maximum
when the spread is within ten percent. -/
def mergeNumeric3 (values : List Str) : List NumInfo :=
  let allNumeric := values.flatMap extractNumericInfo
  let rangeLike := values.filter (fun v => extractNumericInfo v ≠ [] ∧ isRangeValue v)
  let numeric1 :=
    if rangeLike ≠ [] ∧ 1 < rangeLike.length ∧ values.length ≤ 2 * rangeLike.length then
      (let rn := rangeLike.flatMap extractNumericInfo
       if rn ≠ [] then rn else allNumeric)
    else allNumeric
  let allVals := numeric1.map (fun n => n.value)
  let uniqCnt := (dedupBy eqQ (allVals.map (roundQ 1))).length
  let numeric2 :=
    if 3 < uniqCnt ∧ 1 < uniqCnt then
      let sorted := sortAsc allVals
      let median := sorted.getD (sorted.length / 2) 0
      if ltQ (minQD allVals) (median * ((1 : Q)/2)) then
        numeric1.filter (fun n => leQ (median * ((1 : Q)/2)) n.value)
      else numeric1
    else numeric1
  if rangeLike = [] ∨ 2 * rangeLike.length < values.length then
    (if 1 < numeric2.length then
      let vs := numeric2.map (fun n => n.value)
      let mx := maxQD vs
      if ltQ (mx * ((1 : Q)/10)) (mx - minQD vs) then numeric2
      else if 1 < vs.length ∧ (dedupBy eqQ (vs.map (roundQ 1))).length = vs.length then
        numeric2
      else [numeric2.getD (indexOfBy eqQ mx vs) defaultNumInfo]
    else numeric2)
  else numeric2

/-- NumericProcessor.merge_numeric_values: error-structure maximum, else
range-restriction, noise filtering, threshold collapse, prefix selection,
unit compatibility and normalization, single value or range output. -/
def mergeNumericValues (values : List Str) (name : Str) : Option (Str × Str) :=
  match mergeErrPath values with
  | some r => some r
  | none =>
    if values.flatMap extractNumericInfo = [] then none
    else
      let numeric3 := mergeNumeric3 values
      let pref :=
        match mostCommonL
          ((values.filter (fun v => extractNumericInfo v ≠ [])).filterMap prefWordOf) with
        | some (p, _) => p
        | none => if name ≠ [] then name else []
      let units := numeric3.filterMap (fun n => if n.unit = [] then none else some n.unit)
      if units = [] then
        let nums := numeric3.map (fun n => n.value)
        if (dedupBy eqQ nums).length = 1 then
          some ((if pref ≠ [] then pref ++ fmtG (nums.headD 0) else fmtStr (nums.headD 0)),
            exactMatchLabel)
        else
          some (pref ++ fmtG (minQD nums) ++ '-' :: fmtG (maxQD nums), numericRangeLabel)
      else
        let firstUnit := units.headD []
        let compatible := units.tail.all
          (fun u => lowerL u = lowerL firstUnit ∨ (convertUnit 1 u firstUnit).isSome)
        if compatible = false then none
        else
          let normalized := numeric3.map
            (fun n =>
              if n.unit = [] then n.value
              else
                match convertUnit n.value n.unit firstUnit with
                | some c => c
                | none => n.value)
          let rounded := normalized.map (roundQ 6)
          if (dedupBy eqQ rounded).length = 1 then
            some (pref ++ fmtG (normalized.headD 0) ++ firstUnit, unitConversionLabel)
          else
            let mn := minQD normalized
            let mx := maxQD normalized
            if pref ≠ [] then
              some (pref ++ fmtG mn ++ '-' :: fmtG mx ++ firstUnit, numericRangeLabel)
            else some (formatRange mn mx firstUnit name, numericRangeLabel)

/-- The denylist of unrelated keywords of is_relevant_data. -/
def irrelevantKeywords : List Str :=
  ["工作时间".toList, "断电".toList, "操作".toList, "响应".toList,
   "刷新".toList, "频率".toList]

/-- NumericProcessor.is_relevant_data: trivially true on an empty text or
parameter name; else the lowered texts must have SequenceMatcher ratio at
least 0.3, the text must contain a parameter keyword and no denylisted
keyword. -/
def isRelevantData (text name : Str) : Bool :=
  if text = [] ∨ name = [] then true else
  let tl := lowerL text
  let pl := lowerL name
  if ltQ (seqRatio pl tl) ((3 : Q) / 10) then false
  else
    ((splitWs pl).filter (fun w => 1 < w.length)).any (fun k => containsSub k tl) ∧
      ¬ irrelevantKeywords.any (fun k => containsSub k tl)

/-- The list of (value, extracted tokens) pairs of try_numeric_fusion
(values that produced no token are dropped). -/
def dwuOf (data : List Str) : List (Str × List NumInfo) :=
  data.filterMap (fun d =>
    let ni := extractNumericInfo d
    if ni = [] then none else some (d, ni))

/-- The set of distinct non-empty lowercased units across all tokens (the
iteration order of the Python set is immaterial for the compatibility
outcome, see the pairwise-convertibility lemmas; embedded as first-occurrence
order). -/
def rowUnitsOf (dwu : List (Str × List NumInfo)) : List Str :=
  firstKeys (dwu.flatMap (fun item =>
    item.2.filterMap (fun n => if n.unit = [] then none else some (lowerL n.unit))))

/-- Append a value under a key, keeping dict insertion order (the grouping
dicts of try_numeric_fusion and group_by_param_type). -/
def addToGroups (key : Str) (v : β) : List (Str × List β) → List (Str × List β)
  | [] => [(key, [v])]
  | (k0, vs) :: t => if k0 = key then (k0, vs ++ [v]) :: t else (k0, vs) :: addToGroups key v t

/-- FusionEngine.try_numeric_fusion: relevance filter, extraction, global
unit-compatibility gate, grouping by (lowercased) leading unit, merge of the
single or the largest group. -/
def tryNumericFusion (data : List Str) (name : Str) : Option (Str × Str) :=
  let relevant := data.filter (fun d => isRelevantData d name)
  if relevant = [] then none else
  let dwu := dwuOf relevant
  if dwu = [] then none else
  let allUnits := rowUnitsOf dwu
  let gateOK :=
    match allUnits with
    | _ :: _ :: _ => allUnits.tail.all (fun u => (convertUnit 1 u (allUnits.headD [])).isSome)
    | _ => true
  if gateOK = false then none
  else
    let groups := dwu.foldl
      (fun gs item => addToGroups (lowerL ((item.2.headD defaultNumInfo).unit)) item.1 gs) []
    match groups with
    | [(_, unitData)] => truthyOpt (mergeNumericValues unitData name)
    | _ =>
      if groups.length = dwu.length then none
      else
        let largest := groups.foldl
          (fun (acc : Str × List Str) g => if acc.2.length < g.2.length then g else acc)
          (groups.headD ([], []))
        if 2 ≤ largest.2.length then truthyOpt (mergeNumericValues largest.2 name)
        else none

/-- FusionEngine.try_exact_match: normalize and strip punctuation, return the
original text of the first occurrence of the most frequent form when it
occurs at least twice. -/
def tryExactMatch (data : List Str) : Option (Str × Str) :=
  let normalized := data.map (fun t => removePunctuation (normalizeText t false))
  match mostCommonL normalized with
  | some (m, c) =>
    if 2 ≤ c then some (data.getD (indexOfL m normalized) [], exactMatchLabel) else none
  | none => none

/-- The similarity score used by try_similarity_fusion: the maximum of the
three metrics (character ratio, token-sort ratio, token-set ratio — the
fuzzywuzzy metrics are parameters). -/
def simPairScore (f1 f2 f3 : Str → Str → Q) (a b : Str) : Q :=
  maxQ (maxQ (calcSimilarity f1 a b) (calcSimilarity f2 a b)) (calcSimilarity f3 a b)

/-- The outer and inner loops of try_similarity_fusion over index lists with
an explicit claimed set: an unclaimed index seeds a group with every later
unclaimed index whose pair score reaches the threshold; groups of size at
least two are kept and their members claimed. -/
def simGroupsGo (p : ℕ → ℕ → Bool) : List ℕ → List ℕ → List (List ℕ)
  | [], _ => []
  | i :: rest, used =>
    if i ∈ used then simGroupsGo p rest used
    else
      let grp := i :: rest.filter (fun j => decide (j ∉ used) && p i j)
      if 2 ≤ grp.length then grp :: simGroupsGo p rest (used ++ grp)
      else simGroupsGo p rest used

/-- FusionEngine.try_similarity_fusion: greedy single-pass clustering at
threshold*100, result the first element of the largest (first-maximal)
group. -/
def trySimilarityFusion (f1 f2 f3 : Str → Str → Q) (thr : Q) (data : List Str) :
    Option (Str × Str) :=
  let tp := thr * 100
  let p := fun i j => leQ tp (simPairScore f1 f2 f3 (data.getD i []) (data.getD j []))
  let groups := simGroupsGo p (List.range data.length) []
  match groups with
  | [] => none
  | g0 :: gs =>
    let largest := (g0 :: gs).foldl (fun acc g => if acc.length < g.length then g else acc) g0
    some (data.getD (largest.headD 0) [], highSimilarityLabel)

/-- The spec wording of the clustering (section 4.3): iterate items left to
right; each unclaimed item forms a cluster with every later unclaimed item
whose similarity to it reaches the threshold; all are then claimed. -/
def specClustersGo (q : Str → Str → Bool) : ℕ → List Str → List (List Str)
  | 0, _ => []
  | _ + 1, [] => []
  | f + 1, x :: rest =>
    (x :: rest.filter (q x)) :: specClustersGo q f (rest.filter (fun y => !(q x y)))

def specClusters (q : Str → Str → Bool) (l : List Str) : List (List Str) :=
  specClustersGo q l.length l

/-- The first cluster of maximal size. -/
def firstLargest : List (List α) → Option (List α)
  | [] => none
  | g :: gs => some ((g :: gs).foldl (fun acc x => if acc.length < x.length then x else acc) g)

/-- The spec wording of similarity fusion: output the largest cluster,
represented by its first (leftmost) member, when some cluster has size at
least two. -/
def specSimilarityFusion (q : Str → Str → Bool) (data : List Str) : Option Str :=
  match firstLargest (specClusters q data) with
  | some g => if 2 ≤ g.length then some (g.headD []) else none
  | none => none

/-- The claim wording with a strict threshold (similarity must exceed the
threshold) used to refute the boundary behaviour. -/
def specSimilarityFusionStrict (score : Str → Str → Q) (thr : Q) (data : List Str) :
    Option Str :=
  specSimilarityFusion (fun a b => ltQ thr (score a b)) data

/-- Modelled from the spec: the synonym equivalence sets of SemanticFusion
(MEDICAL_SYNONYMS of the missing config/synonyms.py). -/
def medicalSynonyms : List (Str × List Str) :=
  [("显示屏".toList, ["显示器".toList, "屏幕".toList, "液晶屏".toList]),
   ("探头".toList, ["传感器".toList, "探测器".toList]),
   ("电池容量".toList, ["电池".toList, "容量".toList])]

/-- FusionEngine.try_semantic_fusion: synonym-set lookup by the parameter
name, containment scan, most frequent match of at least two; else the
keyword-extraction fallback (the jieba extractor is a parameter). -/
def trySemanticFusion (kw : Str → List Str) (data : List Str) (name : Str) :
    Option (Str × Str) :=
  let syns := medicalSynonyms.findSome?
    (fun p => if containsSub p.1 name ∨ name ∈ p.2 then some (p.1 :: p.2) else none)
  match syns with
  | none => none
  | some ss =>
    let matched := data.filter (fun item => ss.any (fun s => containsSub s item))
    if 2 ≤ matched.length then
      match mostCommonL matched with
      | some (v, _) => some (v, semanticMatchLabel)
      | none => none
    else
      data.findSome? (fun item =>
        if hasKeywordB name (kw item) then some (item, semanticMatchLabel) else none)

/-- FusionEngine.handle_conflict with the configured majority method: the
value occurring at least twice, else the first value. -/
def handleConflict (data : List Str) : Str :=
  match mostCommonL data with
  | some (v, c) => if 2 ≤ c then v else data.headD []
  | none => []

/-- The cleaning step of process_row: strip every value, drop empties and
sentinel no-data words. -/
def validOf (data : List Str) : List Str :=
  (data.map trimL).filter (fun s => decide (s ≠ [] ∧ s ∉ negativeWords))

/-- The semantic and conflict stages of process_row (semantic matching is
enabled in the configuration). -/
def semStage (kw : Str → List Str) (vd : List Str) (name : Str) : Str × Str :=
  match truthyOpt (trySemanticFusion kw vd name) with
  | some (r, t) => (normalizeCompOps r, t)
  | none => (handleConflict vd, manualReviewLabel)

/-- The similarity stages of process_row (thresholds 0.8 and 0.6 from the
configuration; the medium pass relabels the result). -/
def simStage (f1 f2 f3 : Str → Str → Q) (kw : Str → List Str) (vd : List Str)
    (name : Str) : Str × Str :=
  match truthyOpt (trySimilarityFusion f1 f2 f3 (8/10) vd) with
  | some (r, t) => (normalizeCompOps r, t)
  | none =>
    match truthyOpt (trySimilarityFusion f1 f2 f3 (6/10) vd) with
    | some (r, _) => (normalizeCompOps r, mediumSimilarityLabel)
    | none => semStage kw vd name

/-- The numeric stage of process_row (unit conversion is enabled in the
configuration): the tolerance sub-strategy runs first when some value is a
tolerance expression and the parameter name mentions 误差; ordinary numeric
fusion runs when every value is numeric and no model keyword, dimension spec
or tolerance expression occurs. -/
def numericStage (f1 f2 f3 : Str → Str → Q) (kw : Str → List Str) (vd : List Str)
    (name : Str) : Str × Str :=
  let isTol := vd.any isErrorTolerance
  match (if isTol && containsSub "误差".toList name then truthyOpt (tryToleranceFusion vd)
         else none) with
  | some (r, t) => (r, t)
  | none =>
    match (if vd.all isNumericB && !(vd.any hasModelKeywords) &&
              !(vd.any isDimensionSpecification) && !isTol then
             truthyOpt (tryNumericFusion vd name)
           else none) with
    | some (r, t) => (normalizeCompOps r, t)
    | none => simStage f1 f2 f3 kw vd name

/-- FusionEngine.process_row: cleaning, sufficiency checks, then the ordered
strategy chain (exact match, tolerance/numeric, high and medium similarity,
semantic, conflict fallback). -/
def processRow (f1 f2 f3 : Str → Str → Q) (kw : Str → List Str) (name : Str)
    (vendorData : List Str) : Str × Str :=
  match validOf vendorData with
  | [] => ("无有效数据".toList, insufficientDataLabel)
  | [x] => (normalizeCompOps x, singleSupplierLabel)
  | vd =>
    match truthyOpt (tryExactMatch vd) with
    | some (r, t) => (normalizeCompOps r, t)
    | none => numericStage f1 f2 f3 kw vd name

/-- The segment separators of ParameterParser (comma, full-width comma,
semicolons, enumeration comma, newline). -/
def isSegSep (c : Char) : Bool :=
  c = '，' ∨ c = ',' ∨ c = '；' ∨ c = ';' ∨ c = '、' ∨ c = '\n'

def splitOnPredGo (p : Char → Bool) : Str → Str → List Str
  | [], acc => [acc.reverse]
  | c :: t, acc =>
    if p c then acc.reverse :: splitOnPredGo p t [] else splitOnPredGo p t (c :: acc)

/-- re.split on a character class (empty segments kept, as in Python). -/
def splitOnPred (p : Char → Bool) (l : Str) : List Str := splitOnPredGo p l []

/-- The leading comparison-symbol run stripped from a segment. -/
def isCmpSegChar (c : Char) : Bool :=
  c = '≥' ∨ c = '≤' ∨ c = '>' ∨ c = '<' ∨ c = '=' ∨ c = '-' ∨ c = '~'

/-- The parameter-type keyword dictionary of ParameterParser. -/
def paramTypeKeywords : List (Str × List Str) :=
  [("操作系统".toList, ["操作系统".toList, "系统".toList, "系统版本".toList, "OS".toList, "操作".toList]),
   ("CPU".toList, ["CPU".toList, "处理器".toList, "中央处理器".toList, "酷睿".toList, "英特尔".toList, "Intel".toList, "AMD".toList, "锐龙".toList, "Ryzen".toList]),
   ("内存".toList, ["内存".toList, "RAM".toList, "内存大小".toList, "存储内存".toList]),
   ("存储".toList, ["存储".toList, "硬盘".toList, "固态硬盘".toList, "SSD".toList, "HDD".toList, "磁盘".toList, "M.2".toList, "NVMe".toList]),
   ("显示器".toList, ["显示器".toList, "显示屏".toList, "屏幕".toList, "英寸".toList, "分辨率".toList, "液晶屏".toList, "TFT".toList]),
   ("显卡".toList, ["显卡".toList, "GPU".toList, "独立显卡".toList, "集成显卡".toList]),
   ("网络".toList, ["网络".toList, "网口".toList, "RJ45".toList, "以太网".toList]),
   ("接口".toList, ["接口".toList, "USB".toList, "HDMI".toList, "DisplayPort".toList, "Thunderbolt".toList]),
   ("电源".toList, ["电源".toList, "功率".toList, "W".toList, "kW".toList]),
   ("冷却".toList, ["散热".toList, "冷却".toList, "风冷".toList, "液冷".toList])]

/-- ParameterParser._identify_param_type: first keyword dictionary entry with
a case-insensitive keyword hit, else 其他. -/
def identifyParamType (content : Str) : Str :=
  let cl := lowerL content
  match paramTypeKeywords.findSome?
    (fun p => if p.2.any (fun k => containsSub (lowerL k) cl) then some p.1 else none) with
  | some t => t
  | none => "其他".toList

/-- A parsed segment of an integrated parameter cell. -/
structure ParsedParam where
  ptype : Str
  original : Str
  comparison : Str
  content : Str
deriving DecidableEq, Repr

/-- ParameterParser.parse_integrated_params: split on separators, strip a
leading comparison run, classify each non-empty segment. -/
def parseIntegratedParams (text : Str) : List ParsedParam :=
  if text = [] then [] else
  (splitOnPred isSegSep (trimL text)).filterMap (fun seg0 =>
    let seg := trimL seg0
    if seg = [] then none else
    let run := seg.takeWhile isCmpSegChar
    let (cmp, content) :=
      if run ≠ [] then (trimL run, trimL (seg.dropWhile isCmpSegChar))
      else ([], seg)
    if content = [] then none
    else some ⟨identifyParamType content, seg, cmp, content⟩)

/-- ParameterParser.group_by_param_type. -/
def groupByParamType (parsed : List ParsedParam) : List (Str × List ParsedParam) :=
  parsed.foldl (fun gs item => addToGroups item.ptype item gs) []

/-- The parameter-name-to-type mapping of ParameterPreprocessor. -/
def paramTypeMapping : List (Str × List Str) :=
  [("CPU".toList, ["CPU".toList]),
   ("内存".toList, ["内存".toList]),
   ("硬盘".toList, ["存储".toList]),
   ("存储".toList, ["存储".toList]),
   ("显示器".toList, ["显示器".toList]),
   ("显卡".toList, ["显卡".toList]),
   ("操作系统".toList, ["操作系统".toList]),
   ("电源".toList, ["电源".toList]),
   ("散热".toList, ["冷却".toList])]

/-- ParameterPreprocessor._extract_relevant_value: exact group lookup for the
mapped target types, then fuzzy (mutual substring) lookup. -/
def extractRelevantValue (grouped : List (Str × List ParsedParam)) (name : Str) :
    Option Str :=
  if name = [] then none else
  let targets :=
    match paramTypeMapping.find? (fun p => p.1 = name) with
    | some p => p.2
    | none => [name]
  match targets.findSome? (fun t =>
      match grouped.find? (fun g => g.1 = t) with
      | some g =>
        match g.2 with
        | item :: _ => some item.content
        | [] => none
      | none => none) with
  | some v => some v
  | none =>
    targets.findSome? (fun t =>
      grouped.findSome? (fun g =>
        if containsSub (lowerL t) (lowerL g.1) ∨ containsSub (lowerL g.1) (lowerL t) then
          match g.2 with
          | item :: _ => some item.content
          | [] => none
        else none))

/-- ParameterPreprocessor.is_integrated_params: at least two delimiter
characters among half-width comma, full-width comma and enumeration comma. -/
def isIntegratedParams (text : Str) : Bool :=
  2 ≤ text.count ',' + text.count '，' + text.count '、'

/-- ParameterPreprocessor.preprocess: non-integrated values pass through
unchanged; integrated values are split and the segment matching the row
parameter is returned, the original value when no segment matches. -/
def preprocessValue (value : Str) (name : Str) : Str :=
  if trimL value = [] then value
  else if isIntegratedParams value = false then value
  else
    match extractRelevantValue (groupByParamType (parseIntegratedParams value)) name with
    | some v => v
    | none => value

/-- A PARAM_RULES entry restricted to the fields read by the compliance
evaluator (type, tolerance, separator). -/
structure ParamRule where
  rtype : Str
  tolerance : Option Q
  separator : Option Str
deriving DecidableEq, Repr

/-- PARAM_RULES of config/config.py. -/
def paramRules : List (Str × ParamRule) :=
  [("电池容量".toList, ⟨"numeric".toList, some (5/100), none⟩),
   ("波长".toList, ⟨"numeric".toList, some (2/100), none⟩),
   ("功率".toList, ⟨"numeric".toList, some (1/10), none⟩),
   ("电压".toList, ⟨"numeric".toList, some (5/100), none⟩),
   ("频率".toList, ⟨"numeric".toList, some (5/100), none⟩),
   ("容量".toList, ⟨"numeric".toList, some (5/100), none⟩),
   ("重量".toList, ⟨"numeric".toList, some (1/10), none⟩),
   ("尺寸".toList, ⟨"dimension".toList, none, none⟩),
   ("外形尺寸".toList, ⟨"dimension".toList, none, none⟩),
   ("探头类型".toList, ⟨"text".toList, none, none⟩),
   ("显示屏".toList, ⟨"text".toList, none, none⟩),
   ("材质".toList, ⟨"text".toList, none, none⟩),
   ("型号".toList, ⟨"text".toList, none, none⟩),
   ("接口".toList, ⟨"multi_value".toList, none, some ['×']⟩),
   ("附加功能".toList, ⟨"multi_value".toList, none, some ['/']⟩),
   ("探头".toList, ⟨"multi_value".toList, none, some ['/']⟩)]

/-- FusionEngine.get_rule_for_parameter: exact lookup, mutual-substring fuzzy
lookup, default auto rule. -/
def getRuleForParameter (name : Str) : ParamRule :=
  match paramRules.find? (fun p => p.1 = name) with
  | some p => p.2
  | none =>
    match paramRules.find? (fun p => containsSub p.1 name ∨ containsSub name p.1) with
    | some p => p.2
    | none => ⟨"auto".toList, none, none⟩

/-- The semantic-equivalence dictionary of
MedicalDeviceFusion._check_semantic_equivalent. -/
def semanticEquivalents : List (Str × List Str) :=
  [("二维".toList, ["2D".toList, "2d".toList, "two-dimensional".toList, "二维空间".toList]),
   ("2D".toList, ["二维".toList, "2d".toList, "two-dimensional".toList]),
   ("2d".toList, ["二维".toList, "2D".toList, "two-dimensional".toList]),
   ("三维".toList, ["3D".toList, "3d".toList, "three-dimensional".toList, "三维空间".toList]),
   ("3D".toList, ["三维".toList, "3d".toList, "three-dimensional".toList]),
   ("3d".toList, ["三维".toList, "3D".toList, "three-dimensional".toList]),
   ("彩色".toList, ["彩屏".toList, "color".toList, "Color".toList, "全彩".toList]),
   ("黑白".toList, ["单色".toList, "monochrome".toList, "black and white".toList, "灰度".toList]),
   ("触摸".toList, ["触摸屏".toList, "touch".toList, "touchscreen".toList, "触控".toList]),
   ("非触摸".toList, ["普通屏".toList, "non-touch".toList, "非触控".toList]),
   ("无线".toList, ["wireless".toList, "WiFi".toList, "WIFI".toList, "Wi-Fi".toList, "蓝牙".toList]),
   ("有线".toList, ["wired".toList, "有线连接".toList]),
   ("毫米".toList, ["mm".toList, "millimeter".toList]),
   ("厘米".toList, ["cm".toList, "centimeter".toList]),
   ("米".toList, ["m".toList, "meter".toList]),
   ("千克".toList, ["kg".toList, "kilogram".toList]),
   ("克".toList, ["g".toList, "gram".toList]),
   ("升".toList, ["L".toList, "liter".toList]),
   ("毫升".toList, ["mL".toList, "ml".toList, "milliliter".toList])]

/-- MedicalDeviceFusion._check_semantic_equivalent. -/
def checkSemanticEquivalent (t1 t2 : Str) : Bool :=
  let l1 := lowerL t1
  let l2 := lowerL t2
  if l1 = l2 then true
  else
    semanticEquivalents.any (fun p =>
      (containsSub (lowerL p.1) l1 ∨ containsSub (lowerL p.1) l2) ∧
        p.2.any (fun equiv =>
          (containsSub (lowerL equiv) l1 ∧ containsSub (lowerL p.1) l2) ∨
            (containsSub (lowerL equiv) l2 ∧ containsSub (lowerL p.1) l1)))

def upperL (l : Str) : Str := l.map Char.toUpper

/-- The key-count pattern of parse_multi_value: letters or CJK, optional
times-sign, digits. -/
def matchMV (l : Str) : Option ((Str × Str) × Str) :=
  let k := l.takeWhile (fun c => c.isAlpha ∨ isCJK c)
  if k.isEmpty then none else
  let r1 := l.dropWhile (fun c => c.isAlpha ∨ isCJK c)
  let r2 :=
    match r1 with
    | '×' :: t => t
    | _ => r1
  if headDigit r2 then some ((k, r2.takeWhile Char.isDigit), r2.dropWhile Char.isDigit)
  else none

/-- NumericProcessor.parse_multi_value. -/
def parseMultiValue (text : Str) (sep : Str) : List (Str × ℕ) :=
  if sep = ['/'] ∨ containsChar '/' text then
    (splitOnPred (fun c => c = '/') text).foldl
      (fun m part =>
        let clean := trimL ((trimL part).filter (fun c => ¬(c.isDigit ∨ c = '×')))
        if clean = [] then m else upsert (upperL clean) 1 m)
      []
  else
    (scanMatches matchMV text.length 0 text).foldl
      (fun m x => upsert (upperL x.2.1.1) (natOfDigits x.2.1.2) m)
      []

def isCmpOpChar (c : Char) : Bool :=
  c = '≥' ∨ c = '≤' ∨ c = '>' ∨ c = '<' ∨ c = '=' ∨ c = '＞' ∨ c = '＜'

/-- First regex match anywhere in the string (re.search). -/
def searchFirst (m : Str → Option α) : Str → Option α
  | [] => m []
  | c :: t =>
    match m (c :: t) with
    | some a => some a
    | none => searchFirst m t

/-- The comparison-threshold pattern of _evaluate_numeric_compliance:
operator run, optional spaces, number; payload the number group. -/
def compMatchAt (l : Str) : Option Str :=
  let run := l.takeWhile isCmpOpChar
  if run.isEmpty then none else
  match numNoComma ((l.dropWhile isCmpOpChar).dropWhile isPySpace) with
  | some (g, _) => some g
  | none => none

/-- The bare operator-run pattern. -/
def opRunAt (l : Str) : Option Str :=
  let run := l.takeWhile isCmpOpChar
  if run.isEmpty then none else some run

def blueColor : Str := "blue".toList

def grayColor : Str := "gray".toList

def noColorMark : Str := "none".toList

/-- MedicalDeviceFusion._evaluate_numeric_compliance. -/
def evalNumericCompliance (supplier fused : Str) (rule : ParamRule) : Str :=
  let sNums := extractNumericInfo supplier
  let fNums := extractNumericInfo fused
  if sNums = [] ∨ fNums = [] then grayColor else
  let sVal := (sNums.headD defaultNumInfo).value
  let tol := rule.tolerance.getD (5/100)
  let rangeSingle : Str :=
    if containsChar '-' fused ∧ 2 ≤ fNums.length then
      (let mn := minQD (fNums.map (fun n => n.value))
       let mx := maxQD (fNums.map (fun n => n.value))
       if leQ mn sVal ∧ leQ sVal mx then blueColor else noColorMark)
    else
      (let fVal := (fNums.headD defaultNumInfo).value
       let err := if eqQ fVal 0 then (0 : Q) else absQ (sVal - fVal) / fVal
       if leQ err tol then blueColor else noColorMark)
  match searchFirst compMatchAt fused with
  | some thrGroup =>
    let op := (searchFirst opRunAt fused).getD []
    let thr := parseNumStr thrGroup
    if containsChar '≥' op ∨ containsSub ">=".toList op ∨ containsSub "＞=".toList op then
      (if leQ thr sVal then blueColor else noColorMark)
    else if containsChar '≤' op ∨ containsSub "<=".toList op ∨ containsSub "＜=".toList op then
      (if leQ sVal thr then blueColor else noColorMark)
    else if containsChar '>' op ∨ containsChar '＞' op then
      (if ltQ thr sVal then blueColor else noColorMark)
    else if containsChar '<' op ∨ containsChar '＜' op then
      (if ltQ sVal thr then blueColor else noColorMark)
    else if containsChar '=' op then
      (let err := if eqQ thr 0 then (0 : Q) else absQ (sVal - thr) / thr
       if leQ err tol then blueColor else noColorMark)
    else rangeSingle
  | none => rangeSingle

/-- MedicalDeviceFusion._evaluate_multi_value_compliance. -/
def evalMultiValueCompliance (supplier fused : Str) (rule : ParamRule) : Str :=
  let sep := rule.separator.getD ['×']
  let sd := parseMultiValue supplier sep
  let fd := parseMultiValue fused sep
  if sd = [] ∨ fd = [] then grayColor
  else if fd.all (fun p =>
      p.2 ≤ ((sd.find? (fun q => q.1 = p.1)).map (fun q => q.2)).getD 0) then blueColor
  else noColorMark

/-- MedicalDeviceFusion._evaluate_supplier_compliance: gray on an empty
vendor value; blue when the fused value is a case-insensitive substring of
the vendor value; otherwise dispatch on the resolved rule kind and the fusion
type (the token-set metric is the external fuzzywuzzy parameter). -/
def evaluateSupplierCompliance (tokenSetF : Str → Str → Q) (supplier fused name ftype : Str) :
    Str :=
  if trimL supplier = [] then grayColor else
  let ss := trimL supplier
  let fs := trimL fused
  if containsSub (lowerL fs) (lowerL ss) then blueColor else
  let rule := getRuleForParameter name
  if rule.rtype = "text".toList ∨ containsSub "相似度".toList ftype ∨
      containsSub "语义".toList ftype then
    (if checkSemanticEquivalent ss fs then blueColor
     else if leQ 60 (calcSimilarity tokenSetF ss fs) then blueColor
     else noColorMark)
  else if rule.rtype = "numeric".toList ∨ containsSub "范围".toList ftype ∨
      containsSub "单位转换".toList ftype then
    evalNumericCompliance ss fs rule
  else if rule.rtype = "multi_value".toList then
    evalMultiValueCompliance ss fs rule
  else if lowerL ss = lowerL fs then blueColor
  else noColorMark

/-- A constant-zero similarity metric used to instantiate the external
fuzzywuzzy parameters in concrete statements (the stages under scrutiny
there run before any similarity stage). -/
def zeroMetric : Str → Str → Q := fun _ _ => 0

/-- A constant similarity metric with value 80. -/
def const80Metric : Str → Str → Q := fun _ _ => 80

/-- An empty keyword extractor used to instantiate the external jieba
parameter in concrete statements. -/
def zeroKw : Str → List Str := fun _ => []

/-- The four comparison characters that canonicalization must eliminate. -/
def isAngleChar (c : Char) : Bool :=
  c = '>' ∨ c = '<' ∨ c = '＞' ∨ c = '＜'

theorem isPrefixOf_mem : ∀ (p l : Str), p.isPrefixOf l = true → ∀ x ∈ p, x ∈ l := by
  intro p
  induction p with
  | nil => intro l _ x hx; cases hx
  | cons a as ih =>
    intro l hp x hx
    cases l with
    | nil => simp [List.isPrefixOf] at hp
    | cons b bs =>
      simp only [List.isPrefixOf, Bool.and_eq_true, beq_iff_eq] at hp
      rcases List.mem_cons.mp hx with hx | hx
      · exact hx ▸ hp.1 ▸ List.mem_cons_self _ _
      · exact List.mem_cons_of_mem _ (ih bs hp.2 x hx)

theorem mem_replLGo (pat rep : Str) : ∀ (f : ℕ) (l : Str) (c : Char),
    c ∈ replLGo pat rep f l → c ∈ l ∨ c ∈ rep := by
  intro f
  induction f with
  | zero => intro l c hc; exact Or.inl hc
  | succ f ih =>
    intro l c hc
    cases l with
    | nil => cases hc
    | cons d rest =>
      rw [replLGo] at hc
      by_cases h : pat ≠ [] ∧ pat.isPrefixOf (d :: rest) = true
      · rw [if_pos h] at hc
        rcases List.mem_append.mp hc with hc | hc
        · exact Or.inr hc
        · rcases ih _ c hc with hc | hc
          · exact Or.inl (List.mem_of_mem_drop hc)
          · exact Or.inr hc
      · rw [if_neg h] at hc
        rcases List.mem_cons.mp hc with hc | hc
        · exact Or.inl (hc ▸ List.mem_cons_self _ _)
        · rcases ih _ c hc with hc | hc
          · exact Or.inl (List.mem_cons_of_mem _ hc)
          · exact Or.inr hc

theorem mem_replL (pat rep : Str) : ∀ (l : Str) (c : Char),
    c ∈ replL pat rep l → c ∈ l ∨ c ∈ rep :=
  fun l c hc => mem_replLGo pat rep l.length l c hc

theorem replLGo_single_not_mem (c : Char) (rep : Str) (hc : c ∉ rep) :
    ∀ (f : ℕ) (l : Str), l.length ≤ f → c ∉ replLGo [c] rep f l := by
  intro f
  induction f with
  | zero =>
    intro l hl
    rw [List.length_eq_zero.mp (Nat.le_zero.mp hl)]
    intro hm
    cases hm
  | succ f ih =>
    intro l hl
    cases l with
    | nil => intro hm; cases hm
    | cons d rest =>
      rw [replLGo]
      by_cases h : ([c] : Str) ≠ [] ∧ ([c] : Str).isPrefixOf (d :: rest) = true
      · rw [if_pos h]
        intro hm
        rcases List.mem_append.mp hm with hm | hm
        · exact hc hm
        · exact ih _ (by simp at hl ⊢; omega) hm
      · rw [if_neg h]
        intro hm
        rcases List.mem_cons.mp hm with hm | hm
        · subst hm
          exact h ⟨by simp, by simp [List.isPrefixOf]⟩
        · exact ih _ (by simp at hl ⊢; omega) hm

theorem replL_single_not_mem (c : Char) (rep : Str) (hc : c ∉ rep) :
    ∀ l, c ∉ replL [c] rep l :=
  fun l => replLGo_single_not_mem c rep hc l.length l (Nat.le_refl _)

theorem replLGo_no_occur (pat rep : Str) (x : Char) (hx : x ∈ pat) :
    ∀ (f : ℕ) (l : Str), x ∉ l → replLGo pat rep f l = l := by
  intro f
  induction f with
  | zero => intro l _; rfl
  | succ f ih =>
    intro l hnl
    cases l with
    | nil => rfl
    | cons c rest =>
      rw [replLGo]
      by_cases h : pat ≠ [] ∧ pat.isPrefixOf (c :: rest) = true
      · exact absurd (isPrefixOf_mem pat (c :: rest) h.2 x hx) hnl
      · rw [if_neg h, ih rest (fun hm => hnl (List.mem_cons_of_mem _ hm))]

theorem replL_no_occur (pat rep : Str) (x : Char) (hx : x ∈ pat) :
    ∀ l, x ∉ l → replL pat rep l = l :=
  fun l hl => replLGo_no_occur pat rep x hx l.length l hl

theorem chainElim {c : Char} {pat rep l : Str} (h : c ∉ l) (hr : c ∉ rep) :
    c ∉ replL pat rep l :=
  fun hm => ((mem_replL pat rep l c hm).elim h hr)

theorem normalizeCompOps_no_angle (l : Str) :
    '＞' ∉ normalizeCompOps l ∧ '＜' ∉ normalizeCompOps l ∧
      '>' ∉ normalizeCompOps l ∧ '<' ∉ normalizeCompOps l := by
  by_cases hl : l = []
  · simp [normalizeCompOps, hl]
  · simp only [normalizeCompOps, if_neg hl]
    refine ⟨?_, ?_, ?_, ?_⟩
    · refine chainElim ?_ (by decide)
      refine chainElim ?_ (by decide)
      refine chainElim ?_ (by decide)
      refine chainElim ?_ (by decide)
      refine chainElim ?_ (by decide)
      exact replL_single_not_mem _ _ (by decide) _
    · refine chainElim ?_ (by decide)
      refine chainElim ?_ (by decide)
      refine chainElim ?_ (by decide)
      refine chainElim ?_ (by decide)
      exact replL_single_not_mem _ _ (by decide) _
    · refine chainElim ?_ (by decide)
      exact replL_single_not_mem _ _ (by decide) _
    · exact replL_single_not_mem _ _ (by decide) _

/-- C10: the comparison-operator canonicalization produces no half-width or
full-width angle-bracket comparison character, and it is idempotent: applying
it twice gives the same result as applying it once, so every canonicalized
fusion output is a fixpoint. -/
theorem compOps_canonical_c10 (l : Str) :
    ((normalizeCompOps l).all (fun c => !(isAngleChar c)) = true) ∧
      normalizeCompOps (normalizeCompOps l) = normalizeCompOps l := by
  obtain ⟨h1, h2, h3, h4⟩ := normalizeCompOps_no_angle l
  constructor
  · rw [List.all_eq_true]
    intro c hc
    simp only [Bool.not_eq_true', isAngleChar]
    have e1 : c ≠ '>' := fun e => h3 (e ▸ hc)
    have e2 : c ≠ '<' := fun e => h4 (e ▸ hc)
    have e3 : c ≠ '＞' := fun e => h1 (e ▸ hc)
    have e4 : c ≠ '＜' := fun e => h2 (e ▸ hc)
    simp [e1, e2, e3, e4]
  · set nl := normalizeCompOps l with hnl
    by_cases hn : nl = []
    · rw [hn]
      simp [normalizeCompOps]
    · rw [show normalizeCompOps nl =
        replL ['<'] ['≤'] (replL ['>'] ['≥'] (replL ['<', '='] ['≤']
          (replL ['>', '='] ['≥'] (replL ['＜'] ['≤'] (replL ['＞'] ['≥']
            (replL ['＜', '='] ['≤'] (replL ['＞', '='] ['≥'] nl))))))) from by
        simp only [normalizeCompOps, if_neg hn]]
      rw [replL_no_occur _ _ '＞' (by decide) _ h1]
      rw [replL_no_occur _ _ '＜' (by decide) _ h2]
      rw [replL_no_occur _ _ '＞' (by decide) _ h1]
      rw [replL_no_occur _ _ '＜' (by decide) _ h2]
      rw [replL_no_occur _ _ '>' (by decide) _ h3]
      rw [replL_no_occur _ _ '<' (by decide) _ h4]
      rw [replL_no_occur _ _ '>' (by decide) _ h3]
      rw [replL_no_occur _ _ '<' (by decide) _ h4]

/-- C8 counterexample: a value holding two semicolons (delimiters per the
claim) is not detected as an integrated cell by the code. -/
theorem integrated_semicolon_c8_counterexample :
    (";a;b".toList.count ';' = 2) ∧ isIntegratedParams ";a;b".toList = false := by
  constructor
  · decide
  · decide

/-- C8 (amended): the Integrated-Cell Preprocessor detects a value as an
integrated cell exactly when it contains at least two delimiter characters
drawn from the half-width comma, the full-width comma and the enumeration
comma (semicolons are not counted); a value not so detected is returned
unchanged without any splitting. -/
theorem integrated_detection_c8 (t n : Str) :
    (isIntegratedParams t = true ↔ 2 ≤ t.count ',' + t.count '，' + t.count '、') ∧
      (isIntegratedParams t = false → preprocessValue t n = t) := by
  constructor
  · simp [isIntegratedParams]
  · intro h
    by_cases ht : trimL t = []
    · simp [preprocessValue, ht]
    · simp [preprocessValue, ht, h]

/-- C8 witness: a concrete non-integrated value passes through unchanged. -/
theorem integrated_detection_c8_witness :
    preprocessValue "a;b".toList "CPU".toList = "a;b".toList :=
  (integrated_detection_c8 "a;b".toList "CPU".toList).2 (by decide)

theorem startsWithL_refl : ∀ (l : Str), startsWithL l l = true := by
  intro l
  induction l with
  | nil => rfl
  | cons c t ih => simp [startsWithL, ih]

theorem containsSub_self (l : Str) : containsSub l l = true := by
  cases l with
  | nil => rfl
  | cons c t => simp [containsSub, startsWithL_refl]

/-- C9: on a row evaluated for compliance, an empty vendor value is always
classified NoData (gray), and a non-empty vendor value of which the fused
value is a case-insensitive substring — in particular a vendor value equal to
the fused value up to case — is always classified Compliant (blue). -/
theorem compliance_roundtrip_c9 (f : Str → Str → Q) (supplier fused name ftype : Str) :
    (trimL supplier = [] →
      evaluateSupplierCompliance f supplier fused name ftype = grayColor) ∧
    (trimL supplier ≠ [] →
      containsSub (lowerL (trimL fused)) (lowerL (trimL supplier)) = true →
      evaluateSupplierCompliance f supplier fused name ftype = blueColor) ∧
    (trimL supplier ≠ [] → lowerL (trimL supplier) = lowerL (trimL fused) →
      evaluateSupplierCompliance f supplier fused name ftype = blueColor) := by
  refine ⟨?_, ?_, ?_⟩
  · intro h
    simp [evaluateSupplierCompliance, h]
  · intro h1 h2
    simp [evaluateSupplierCompliance, h1, h2]
  · intro h1 h2
    have h3 : containsSub (lowerL (trimL fused)) (lowerL (trimL supplier)) = true := by
      rw [h2]
      exact containsSub_self _
    simp [evaluateSupplierCompliance, h1, h3]

/-- C9 witness: an empty vendor value is NoData; a vendor value equal to the
fused value up to case is Compliant. -/
theorem compliance_roundtrip_c9_witness :
    evaluateSupplierCompliance zeroMetric "".toList "x".toList "p".toList "t".toList =
        grayColor ∧
      evaluateSupplierCompliance zeroMetric "ABC".toList "abc".toList "p".toList "t".toList =
        blueColor :=
  ⟨(compliance_roundtrip_c9 zeroMetric "".toList "x".toList "p".toList "t".toList).1
      (by decide),
   (compliance_roundtrip_c9 zeroMetric "ABC".toList "abc".toList "p".toList "t".toList).2.1
      (by decide) (by decide)⟩

theorem normalCats_lookup_self :
    ∀ cat ∈ normalCats,
      getConvsFor cat.name = some cat.convs := by
  decide

theorem elecSubs_lookup_self :
    ∀ sub ∈ elecSubs,
      getConvsFor ("电学类_".toList ++ sub.subName) = some sub.convs := by
  decide

theorem identify_lookup (u c : Str) (h : identifyUnitCategory u = some c) :
    ∃ convs f, getConvsFor c = some convs ∧ lookupCI convs u = some f := by
  by_cases hu : u.isEmpty
  · simp [identifyUnitCategory, hu] at h
  · rw [identifyUnitCategory] at h
    simp only [hu, if_false, Bool.false_eq_true] at h
    rcases hfind : normalCats.find? (fun cat => catHasUnit cat (lowerL u)) with _ | cat
    · rw [hfind] at h
      rcases hfind2 : elecSubs.find? (fun sub => elecHasUnit sub (lowerL u)) with _ | sub
      · rw [hfind2] at h
        cases h
      · rw [hfind2] at h
        injection h with h
        subst h
        have hmem := List.mem_of_find?_eq_some hfind2
        have hpred := List.find?_some hfind2
        simp only [elecHasUnit, List.any_eq_true] at hpred
        obtain ⟨p, hp, hpl⟩ := hpred
        have hs : (sub.convs.find? (fun q => lowerL q.1 = lowerL u)).isSome = true := by
          rw [List.find?_isSome]
          exact ⟨p, hp, by simp [of_decide_eq_true hpl]⟩
        rcases hq : sub.convs.find? (fun q => lowerL q.1 = lowerL u) with _ | q
        · rw [hq] at hs; cases hs
        · exact ⟨sub.convs, q.2, elecSubs_lookup_self sub hmem, by simp [lookupCI, hq]⟩
    · rw [hfind] at h
      injection h with h
      subst h
      have hmem := List.mem_of_find?_eq_some hfind
      have hpred := List.find?_some hfind
      simp only [catHasUnit, List.any_eq_true] at hpred
      obtain ⟨p, hp, hpl⟩ := hpred
      have hs : (cat.convs.find? (fun q => lowerL q.1 = lowerL u)).isSome = true := by
        rw [List.find?_isSome]
        exact ⟨p, hp, by simp [of_decide_eq_true hpl]⟩
      rcases hq : cat.convs.find? (fun q => lowerL q.1 = lowerL u) with _ | q
      · rw [hq] at hs; cases hs
      · exact ⟨cat.convs, q.2, normalCats_lookup_self cat hmem, by simp [lookupCI, hq]⟩

/-- Convert answers none when a unit is unknown or the categories differ. -/
theorem convertUnit_none_of (v : Q) (fu tu : Str)
    (h : identifyUnitCategory fu = none ∨ identifyUnitCategory tu = none ∨
      identifyUnitCategory fu ≠ identifyUnitCategory tu) :
    convertUnit v fu tu = none := by
  rcases hu : identifyUnitCategory fu with _ | cu
  · simp [convertUnit, hu]
  · rcases hv : identifyUnitCategory tu with _ | cv
    · simp [convertUnit, hu, hv]
    · have hc : cu ≠ cv := by
        rcases h with h | h | h
        · rw [hu] at h; cases h
        · rw [hv] at h; cases h
        · rw [hu, hv] at h
          intro he
          exact h (by rw [he])
      simp [convertUnit, hu, hv, hc]

/-- Convert answers a value whenever the two units share a category. -/
theorem convertUnit_some_of (v : Q) (fu tu : Str) (c : Str)
    (hu : identifyUnitCategory fu = some c) (hv : identifyUnitCategory tu = some c) :
    (convertUnit v fu tu).isSome = true := by
  obtain ⟨convs, ff, hg, hlu⟩ := identify_lookup fu c hu
  obtain ⟨convs2, tf, hg2, hlv⟩ := identify_lookup tu c hv
  rw [hg] at hg2
  injection hg2 with hg2
  subst hg2
  simp only [convertUnit, hu, hv, if_pos rfl, hg, hlu, hlv]
  by_cases ht : catBaseOf c = "温度类".toList
  · rw [if_pos ht]
    rfl
  · rw [if_neg ht]
    rfl

/-- The non-temperature conversion formula. -/
theorem convertUnit_formula (v : Q) (fu tu : Str) (c : Str) (convs : List (Str × Q))
    (ff tf : Q) (hu : identifyUnitCategory fu = some c) (hv : identifyUnitCategory tu = some c)
    (hg : getConvsFor c = some convs) (hlu : lookupCI convs fu = some ff)
    (hlv : lookupCI convs tu = some tf) (ht : catBaseOf c ≠ "温度类".toList) :
    convertUnit v fu tu = some (roundQ 4 (v * ff / tf)) := by
  simp only [convertUnit, hu, hv, if_pos rfl, hg, hlu, hlv]
  rw [if_neg ht]
  simp

theorem convertUnit_temp1 (v : Q) :
    convertUnit v "℃".toList "°F".toList = some (roundQ 2 (v * 9 / 5 + 32)) := by
  rfl

theorem convertUnit_temp2 (v : Q) :
    convertUnit v "°F".toList "℃".toList = some (roundQ 2 ((v - 32) * 5 / 9)) := by
  rfl

/-- Pairwise convertibility succeeds exactly when both units resolve to the
same category of the Unit Table. -/
theorem convertible_iff (u v : Str) :
    (convertUnit 1 u v).isSome = true ↔
      ∃ c, identifyUnitCategory u = some c ∧ identifyUnitCategory v = some c := by
  constructor
  · intro h
    rcases hu : identifyUnitCategory u with _ | cu
    · rw [convertUnit_none_of 1 u v (Or.inl hu)] at h
      cases h
    · rcases hv : identifyUnitCategory v with _ | cv
      · rw [convertUnit_none_of 1 u v (Or.inr (Or.inl hv))] at h
        cases h
      · by_cases hc : cu = cv
        · exact ⟨cu, rfl, by rw [hc]⟩
        · rw [convertUnit_none_of 1 u v (Or.inr (Or.inr (by
            rw [hu, hv]
            intro he
            injection he with he
            exact hc he)))] at h
          cases h
  · rintro ⟨c, hu, hv⟩
    exact convertUnit_some_of 1 u v c hu hv

theorem convertible_symm (u v : Str) (h : (convertUnit 1 u v).isSome = true) :
    (convertUnit 1 v u).isSome = true := by
  obtain ⟨c, hu, hv⟩ := (convertible_iff u v).mp h
  exact (convertible_iff v u).mpr ⟨c, hv, hu⟩

theorem convertible_trans (u v w : Str) (h1 : (convertUnit 1 u v).isSome = true)
    (h2 : (convertUnit 1 v w).isSome = true) : (convertUnit 1 u w).isSome = true := by
  obtain ⟨c, hu, hv⟩ := (convertible_iff u v).mp h1
  obtain ⟨c2, hv2, hw⟩ := (convertible_iff v w).mp h2
  rw [hv] at hv2
  injection hv2 with hv2
  exact (convertible_iff u w).mpr ⟨c, hu, hv2 ▸ hw⟩

/-- C6: convert returns none (and, being a total function, never throws) when
either unit is unknown or the two units resolve to different categories; on a
common category it always converts, with the non-temperature formula value
times factor(from) divided by factor(to) rounded to 4 decimals; temperature
uses the affine Celsius-Fahrenheit formulas instead of a factor. -/
theorem convert_unit_c6 (v : Q) (fu tu : Str) :
    (identifyUnitCategory fu = none ∨ identifyUnitCategory tu = none ∨
      identifyUnitCategory fu ≠ identifyUnitCategory tu → convertUnit v fu tu = none) ∧
    (∀ c, identifyUnitCategory fu = some c → identifyUnitCategory tu = some c →
      (convertUnit v fu tu).isSome = true) ∧
    (∀ c convs ff tf, identifyUnitCategory fu = some c → identifyUnitCategory tu = some c →
      getConvsFor c = some convs → lookupCI convs fu = some ff → lookupCI convs tu = some tf →
      catBaseOf c ≠ "温度类".toList →
      convertUnit v fu tu = some (roundQ 4 (v * ff / tf))) ∧
    (convertUnit v "℃".toList "°F".toList = some (roundQ 2 (v * 9 / 5 + 32)) ∧
      convertUnit v "°F".toList "℃".toList = some (roundQ 2 ((v - 32) * 5 / 9))) :=
  ⟨convertUnit_none_of v fu tu,
   fun c hu hv => convertUnit_some_of v fu tu c hu hv,
   fun c convs ff tf hu hv hg hlu hlv ht =>
     convertUnit_formula v fu tu c convs ff tf hu hv hg hlu hlv ht,
   convertUnit_temp1 v, convertUnit_temp2 v⟩

/-- C6 witness: an unknown unit yields none; kg to g converts with the mass
factors, and the concrete quotient evaluates to 5000. -/
theorem convert_unit_c6_witness :
    convertUnit 5 "xyz".toList "kg".toList = none ∧
      (convertUnit 5 "kg".toList "g".toList).isSome = true ∧
      (convertUnit 5 "kg".toList "g".toList).map Q.val = some 5000 := by
  refine ⟨(convert_unit_c6 5 "xyz".toList "kg".toList).1 (Or.inl (by decide)),
    (convert_unit_c6 5 "kg".toList "g".toList).2.1 "质量类".toList (by decide) (by decide),
    ?_⟩
  have h : convertUnit 5 "kg".toList "g".toList = some ⟨50000000, 10000⟩ := by decide
  rw [h]
  norm_num [Q.val]

theorem addQ_n_nonneg (a b : Q) (ha : 0 ≤ a.n) (hb : 0 ≤ b.n) : 0 ≤ (a + b).n := by
  show 0 ≤ a.n * (b.d : ℤ) + b.n * (a.d : ℤ)
  have h1 : 0 ≤ a.n * (b.d : ℤ) := mul_nonneg ha (Int.natCast_nonneg _)
  have h2 : 0 ≤ b.n * (a.d : ℤ) := mul_nonneg hb (Int.natCast_nonneg _)
  omega

theorem divQ_n_nonneg (a b : Q) (ha : 0 ≤ a.n) (hb : 0 ≤ b.n) : 0 ≤ (a / b).n := by
  show 0 ≤ (divQ a b).n
  rw [divQ]
  by_cases h1 : 0 < b.n
  · rw [if_pos h1]
    exact mul_nonneg ha (Int.natCast_nonneg _)
  · rw [if_neg h1]
    by_cases h2 : b.n < 0
    · omega
    · rw [if_neg h2]

theorem parseNumStr_n_nonneg (l : Str) : 0 ≤ (parseNumStr l).n := by
  simp only [parseNumStr]
  apply addQ_n_nonneg
  · exact Int.natCast_nonneg _
  · apply divQ_n_nonneg
    · exact Int.natCast_nonneg _
    · show (0 : ℤ) ≤ 10 ^ _
      positivity

theorem val_nonneg (q : Q) (h : 0 ≤ q.n) : 0 ≤ q.val := by
  rw [Q.val]
  apply div_nonneg
  · exact_mod_cast h
  · exact Nat.cast_nonneg _

theorem sufex_trans {a b c : Str} (h1 : ∃ p, p ++ b = a) (h2 : ∃ p, p ++ c = b) :
    ∃ p, p ++ c = a := by
  obtain ⟨p1, hp1⟩ := h1
  obtain ⟨p2, hp2⟩ := h2
  exact ⟨p1 ++ p2, by rw [List.append_assoc, hp2, hp1]⟩

theorem dropWhile_sufex (p : Char → Bool) (l : Str) : ∃ pre, pre ++ l.dropWhile p = l :=
  ⟨l.takeWhile p, List.takeWhile_append_dropWhile p l⟩

theorem numCore_sufex (l g r : Str) (h : numCore l = some (g, r)) :
    ∃ pre, pre ++ r = l := by
  unfold numCore at h
  split at h
  · next c t =>
    split at h
    · simp only [] at h
      split at h
      · next r3 heq =>
        obtain ⟨hg, hr⟩ := Prod.mk.inj (Option.some.inj h)
        subst hr
        have s1 : ∃ p, p ++ (c :: t).dropWhile Char.isDigit = c :: t :=
          dropWhile_sufex Char.isDigit (c :: t)
        have s2 : ∃ p, p ++ ((c :: t).dropWhile Char.isDigit).dropWhile isDigitComma =
            (c :: t).dropWhile Char.isDigit := dropWhile_sufex isDigitComma _
        have s3 : ∃ p, (p ++ r3 : Str) =
            ((c :: t).dropWhile Char.isDigit).dropWhile isDigitComma := ⟨['.'], heq.symm⟩
        have s4 : ∃ p, p ++ r3.dropWhile Char.isDigit = r3 := dropWhile_sufex Char.isDigit r3
        exact sufex_trans (sufex_trans (sufex_trans s1 s2) s3) s4
      · next heq =>
        obtain ⟨hg, hr⟩ := Prod.mk.inj (Option.some.inj h)
        subst hr
        exact sufex_trans (dropWhile_sufex Char.isDigit (c :: t))
          (dropWhile_sufex isDigitComma _)
    · cases h
  · cases h

/-- The remainder of the unit matcher is a suffix of its input. -/
theorem unitMatch_sufex (l : Str) : ∃ pre, pre ++ (unitMatch l).2 = l := by
  unfold unitMatch
  simp only []
  split
  · exact dropWhile_sufex isCJK l
  · exact dropWhile_sufex isLatinUnitChar l

/-- A successful numeric-core match starts at a digit. -/
theorem numCore_digit (l g r : Str) (h : numCore l = some (g, r)) :
    ∃ d t, l = d :: t ∧ d.isDigit = true := by
  unfold numCore at h
  split at h
  · next c t =>
    split at h
    · exact ⟨c, t, rfl, by assumption⟩
    · cases h
  · cases h

/-- The remainder of the phase-4 matcher is a suffix of its input. -/
theorem matchP4_sufex (l : Str) (pl : Char × Str × Str × Str) (r : Str)
    (h : matchP4 l = some (pl, r)) : ∃ pre, pre ++ r = l := by
  unfold matchP4 at h
  split at h
  · next c s rest =>
    split at h
    · split at h
      · cases h
      · next g r1 heq =>
        simp only [] at h
        obtain ⟨hpl, hr⟩ := Prod.mk.inj (Option.some.inj h)
        subst hr
        have s1 : ∃ p, (p ++ rest : Str) = c :: s :: rest := ⟨[c, s], rfl⟩
        have s2 : ∃ p, p ++ r1 = rest := numCore_sufex rest g r1 heq
        have s3 : ∃ p, p ++ r1.dropWhile isPySpace = r1 := dropWhile_sufex isPySpace r1
        have s4 : ∃ p, p ++ (unitMatch (r1.dropWhile isPySpace)).2 = r1.dropWhile isPySpace :=
          unitMatch_sufex _
        exact sufex_trans (sufex_trans (sufex_trans s1 s2) s3) s4
    · cases h
  · cases h

/-- A phase-4 match witnesses the claimed context: the sign is preceded by a
whitespace or comparison character and followed directly by a digit. -/
theorem matchP4_shape (l : Str) (pl : Char × Str × Str × Str) (r : Str)
    (h : matchP4 l = some (pl, r)) :
    ∃ c d rest, l = c :: pl.1 :: d :: rest ∧ isSignPre c = true ∧
      (pl.1 = '-' ∨ pl.1 = '+') ∧ d.isDigit = true := by
  unfold matchP4 at h
  split at h
  · next c s rest =>
    split at h
    · next hcond =>
      split at h
      · cases h
      · next g r1 heq =>
        simp only [] at h
        obtain ⟨hpl, hr⟩ := Prod.mk.inj (Option.some.inj h)
        obtain ⟨d, t, hrest, hd⟩ := numCore_digit rest g r1 heq
        refine ⟨c, d, t, ?_, hcond.1, ?_, hd⟩
        · rw [hrest, ← hpl]
        · rw [← hpl]; exact hcond.2
    · cases h
  · cases h

/-- Every payload recorded by the scanner comes from a match of the matcher
at some suffix of the input, provided the matcher returns suffixes. -/
theorem scanMatches_mem {α : Type} (m : Str → Option (α × Str))
    (hm : ∀ l a r, m l = some (a, r) → ∃ pre, pre ++ r = l)
    (f pos : ℕ) (l : Str) (e : ℕ × α × ℕ) (he : e ∈ scanMatches m f pos l) :
    ∃ s r, (∃ pre, pre ++ s = l) ∧ m s = some (e.2.1, r) := by
  induction f generalizing pos l with
  | zero => rw [scanMatches] at he; cases he
  | succ f ih =>
    match l with
    | [] => rw [scanMatches] at he; cases he
    | c :: t =>
      rw [scanMatches] at he
      rcases hmc : m (c :: t) with _ | p
      · rw [hmc] at he
        obtain ⟨s, r, ⟨pre, hpre⟩, hms⟩ := ih _ _ he
        exact ⟨s, r, ⟨c :: pre, by rw [List.cons_append, hpre]⟩, hms⟩
      · rw [hmc] at he
        simp only [] at he
        rcases List.mem_cons.mp he with h1 | h2
        · refine ⟨c :: t, p.2, ⟨[], rfl⟩, ?_⟩
          rw [hmc, h1]
        · obtain ⟨s, r, hsuf, hms⟩ := ih _ _ h2
          have hrest : ∃ pre, pre ++ p.2 = c :: t := by
            have := hm (c :: t) p.1 p.2
            exact this (by rw [hmc])
          exact ⟨s, r, sufex_trans hrest hsuf, hms⟩

/-- Values from the first three extraction phases are never negative: the
parsed number string contains no sign. -/
theorem p123_nonneg (l : Str) (info : NumInfo)
    (h : info ∈ p1InfosOf l ++ p2InfosOf l ++ p3InfosOf l) : 0 ≤ info.value.n := by
  rcases List.mem_append.mp h with h12 | h3
  · rcases List.mem_append.mp h12 with h1 | h2
    · obtain ⟨x, _, hx⟩ := List.mem_flatMap.mp h1
      rcases List.mem_cons.mp hx with rfl | hx2
      · exact parseNumStr_n_nonneg _
      · rcases List.mem_cons.mp hx2 with rfl | hx3
        · exact parseNumStr_n_nonneg _
        · cases hx3
    · obtain ⟨x, _, hx⟩ := List.mem_map.mp h2
      rw [← hx]
      exact parseNumStr_n_nonneg _
  · obtain ⟨x, _, hx⟩ := List.mem_map.mp h3
    rw [← hx]
    simp only []
    split
    · exact parseNumStr_n_nonneg _
    · exact parseNumStr_n_nonneg _

/-- A negative extracted value comes from a phase-4 match whose sign
character is the minus sign. -/
theorem extract_neg_from_p4 (l : Str) (info : NumInfo)
    (hmem : info ∈ extractNumericInfo l) (hneg : info.value.n < 0) :
    ∃ x, x ∈ scanMatches matchP4 l.length 0 l ∧ x.2.1.1 = '-' := by
  unfold extractNumericInfo at hmem
  rcases List.mem_append.mp hmem with h123 | h4
  · exact absurd (p123_nonneg l info h123) (by omega)
  · obtain ⟨x, hx, hval⟩ := List.mem_map.mp h4
    refine ⟨x, hx, ?_⟩
    by_cases hs : x.2.1.1 = '-'
    · exact hs
    · exfalso
      rw [← hval] at hneg
      simp only [hs, if_neg, if_false] at hneg
      exact absurd (parseNumStr_n_nonneg x.2.1.2.1) (by omega)

/-- C3: the numeric extractor treats a minus or plus as a unary sign only
when it is immediately preceded by whitespace or one of ≥ ≤ > < = and
followed directly by digits (every phase-4 match sits in such a context, and
any negative extracted value arises that way); extraction of 0.5-13000
yields exactly the non-negative values 1/2 and 13000, while extraction of
the string ≥-10 yields the value -10. -/
theorem numeric_sign_c3 :
    (∀ (l : Str) (x : ℕ × (Char × Str × Str × Str) × ℕ),
      x ∈ scanMatches matchP4 l.length 0 l →
      ∃ pre c d rest, pre ++ c :: x.2.1.1 :: d :: rest = l ∧
        isSignPre c = true ∧ (x.2.1.1 = '-' ∨ x.2.1.1 = '+') ∧ d.isDigit = true) ∧
    (∀ (l : Str) (info : NumInfo), info ∈ extractNumericInfo l → info.value.n < 0 →
      ∃ pre c d rest, pre ++ c :: '-' :: d :: rest = l ∧
        isSignPre c = true ∧ d.isDigit = true) ∧
    (extractNumericInfo "0.5-13000".toList).map (fun i => i.value.val) = [1/2, 13000] ∧
    (∃ info, info ∈ extractNumericInfo "≥-10".toList ∧ info.value.val = -10) := by
  have hgen : ∀ (l : Str) (x : ℕ × (Char × Str × Str × Str) × ℕ),
      x ∈ scanMatches matchP4 l.length 0 l →
      ∃ pre c d rest, pre ++ c :: x.2.1.1 :: d :: rest = l ∧
        isSignPre c = true ∧ (x.2.1.1 = '-' ∨ x.2.1.1 = '+') ∧ d.isDigit = true := by
    intro l x hx
    obtain ⟨s, r, ⟨pre, hpre⟩, hms⟩ := scanMatches_mem matchP4 matchP4_sufex _ _ l x hx
    obtain ⟨c, d, rest, hshape, hc, hsgn, hd⟩ := matchP4_shape s x.2.1 r hms
    exact ⟨pre, c, d, rest, by rw [← hpre, hshape], hc, hsgn, hd⟩
  refine ⟨hgen, ?_, ?_, ?_⟩
  · intro l info hmem hneg
    obtain ⟨x, hx, hs⟩ := extract_neg_from_p4 l info hmem hneg
    obtain ⟨pre, c, d, rest, heq, hc, _, hd⟩ := hgen l x hx
    rw [hs] at heq
    exact ⟨pre, c, d, rest, heq, hc, hd⟩
  · have h : extractNumericInfo "0.5-13000".toList =
        [⟨⟨5, 10⟩, [], "0.5".toList, false⟩, ⟨⟨13000, 1⟩, [], "13000".toList, false⟩] := by
      decide
    rw [h]
    simp only [List.map]
    norm_num [Q.val]
  · refine ⟨⟨⟨-10, 1⟩, [], "≥-10".toList, false⟩, by decide, ?_⟩
    norm_num [Q.val]

/-- Witness for C3 at the concrete input ≥-10. -/
theorem numeric_sign_c3_witness :
    ∃ pre c d rest, pre ++ c :: '-' :: d :: rest = "≥-10".toList ∧
      isSignPre c = true ∧ d.isDigit = true :=
  numeric_sign_c3.2.1 "≥-10".toList ⟨⟨-10, 1⟩, [], "≥-10".toList, false⟩
    (by decide) (by decide)

theorem leQ_refl (a : Q) : leQ a a = true := by
  simp [leQ]

theorem ltQ_leQ (a b : Q) (h : ltQ a b = true) : leQ a b = true := by
  simp only [ltQ, decide_eq_true_eq] at h
  simp only [leQ, decide_eq_true_eq]
  omega

theorem leQ_of_not_ltQ (a b : Q) (h : ltQ a b = false) : leQ b a = true := by
  simp only [ltQ, decide_eq_false_iff_not] at h
  simp only [leQ, decide_eq_true_eq]
  omega

theorem leQ_trans (a b c : Q) (hb : 0 < b.d) (h1 : leQ a b = true) (h2 : leQ b c = true) :
    leQ a c = true := by
  simp only [leQ, decide_eq_true_eq] at h1 h2 ⊢
  have hbd : (0 : ℤ) < b.d := by exact_mod_cast hb
  have h1c := mul_le_mul_of_nonneg_right h1 (Int.natCast_nonneg c.d)
  have h2a := mul_le_mul_of_nonneg_right h2 (Int.natCast_nonneg a.d)
  have k1 : a.n * c.d * b.d ≤ c.n * a.d * b.d := by nlinarith [h1c, h2a]
  exact le_of_mul_le_mul_right k1 hbd

theorem addQ_d_pos (a b : Q) (ha : 0 < a.d) (hb : 0 < b.d) : 0 < (a + b).d := by
  show 0 < a.d * b.d
  positivity

theorem divQ_d_pos (a b : Q) (ha : 0 < a.d) (hb : 0 < b.n) : 0 < (a / b).d := by
  show 0 < (divQ a b).d
  rw [divQ, if_pos hb]
  show 0 < a.d * b.n.toNat
  have h1 : 0 < b.n.toNat := by omega
  positivity

theorem parseNumStr_d_pos (l : Str) : 0 < (parseNumStr l).d := by
  simp only [parseNumStr]
  apply addQ_d_pos
  · exact Nat.one_pos
  · apply divQ_d_pos
    · exact Nat.one_pos
    · show (0 : ℤ) < 10 ^ _
      positivity

theorem tolUpd_none (p : Str × Str) :
    tolUpd none p = some (parseNumStr p.1, if p.2 = [] then ['%'] else p.2) := rfl

theorem tolUpd_some (m0 : Q) (u0 : Str) (p : Str × Str) :
    tolUpd (some (m0, u0)) p =
      if ltQ m0 (parseNumStr p.1) then
        some (parseNumStr p.1, if p.2 = [] then ['%'] else p.2)
      else some (m0, u0) := rfl

theorem tolStep_eq (acc : Option (Q × Str)) (val : Str) :
    tolStep acc val =
      if trimL val = [] then acc else (tolMatchesOf (trimL val)).foldl tolUpd acc := rfl

/-- The tolerance maximum-tracking fold never yields none from a some
accumulator or a non-empty match list. -/
theorem tolInnerFold_none (ps : List (Str × Str)) :
    ∀ (acc : Option (Q × Str)), List.foldl tolUpd acc ps = none →
    acc = none ∧ ps = [] := by
  induction ps with
  | nil => intro acc h; exact ⟨h, rfl⟩
  | cons p t ih =>
    intro acc h
    rw [List.foldl_cons] at h
    exfalso
    match acc with
    | none =>
      obtain ⟨h1, _⟩ := ih _ h
      rw [tolUpd_none] at h1
      cases h1
    | some (m0, u0) =>
      obtain ⟨h1, _⟩ := ih _ h
      rw [tolUpd_some] at h1
      by_cases hlt : ltQ m0 (parseNumStr p.1) = true
      · rw [if_pos hlt] at h1; cases h1
      · have hlt2 : ¬ (ltQ m0 (parseNumStr p.1) = true) := hlt
        rw [if_neg hlt2] at h1; cases h1

/-- The tolerance maximum-tracking fold yields a positive-denominator
maximum bounding every parsed match and the starting accumulator. -/
theorem tolInnerFold_spec (ps : List (Str × Str)) :
    ∀ (acc : Option (Q × Str)),
    (∀ m0 u0, acc = some (m0, u0) → 0 < m0.d) →
    ∀ mf uf, List.foldl tolUpd acc ps = some (mf, uf) →
    0 < mf.d ∧ (∀ p ∈ ps, leQ (parseNumStr p.1) mf = true) ∧
      (∀ m0 u0, acc = some (m0, u0) → leQ m0 mf = true) := by
  induction ps with
  | nil =>
    intro acc hacc mf uf h
    simp only [List.foldl_nil] at h
    refine ⟨hacc mf uf h, ?_, ?_⟩
    · intro p hp; cases hp
    · intro m0 u0 h0
      rw [h0] at h
      obtain ⟨h1, _⟩ := Prod.mk.inj (Option.some.inj h)
      rw [h1]
      exact leQ_refl mf
  | cons p t ih =>
    intro acc hacc mf uf h
    rw [List.foldl_cons] at h
    match acc with
    | none =>
      rw [tolUpd_none] at h
      obtain ⟨hd, hall, hpush⟩ := ih _ (by
        intro m0 u0 h0
        obtain ⟨h1, _⟩ := Prod.mk.inj (Option.some.inj h0)
        rw [← h1]
        exact parseNumStr_d_pos p.1) mf uf h
      refine ⟨hd, ?_, ?_⟩
      · intro q hq
        rcases List.mem_cons.mp hq with rfl | hq2
        · exact hpush (parseNumStr q.1) _ rfl
        · exact hall q hq2
      · intro m0 u0 h0; cases h0
    | some (m0, u0) =>
      have hm0 : 0 < m0.d := hacc m0 u0 rfl
      rw [tolUpd_some] at h
      by_cases hlt : ltQ m0 (parseNumStr p.1) = true
      · rw [if_pos hlt] at h
        obtain ⟨hd, hall, hpush⟩ := ih _ (by
          intro m1 u1 h1
          obtain ⟨h2, _⟩ := Prod.mk.inj (Option.some.inj h1)
          rw [← h2]
          exact parseNumStr_d_pos p.1) mf uf h
        have hev : leQ (parseNumStr p.1) mf = true := hpush (parseNumStr p.1) _ rfl
        refine ⟨hd, ?_, ?_⟩
        · intro q hq
          rcases List.mem_cons.mp hq with rfl | hq2
          · exact hev
          · exact hall q hq2
        · intro m1 u1 h1
          obtain ⟨h2, _⟩ := Prod.mk.inj (Option.some.inj h1)
          rw [← h2]
          exact leQ_trans m0 (parseNumStr p.1) mf (parseNumStr_d_pos p.1) (ltQ_leQ _ _ hlt) hev
      · have hlt2 : ¬ (ltQ m0 (parseNumStr p.1) = true) := hlt
        rw [if_neg hlt2] at h
        obtain ⟨hd, hall, hpush⟩ := ih _ hacc mf uf h
        have hm0f : leQ m0 mf = true := hpush m0 u0 rfl
        refine ⟨hd, ?_, ?_⟩
        · intro q hq
          rcases List.mem_cons.mp hq with rfl | hq2
          · have hq0 : leQ (parseNumStr q.1) m0 = true :=
              leQ_of_not_ltQ m0 (parseNumStr q.1) (Bool.not_eq_true _ ▸ eq_false_of_ne_true hlt)
            exact leQ_trans (parseNumStr q.1) m0 mf hm0 hq0 hm0f
          · exact hall q hq2
        · intro m1 u1 h1
          obtain ⟨h2, _⟩ := Prod.mk.inj (Option.some.inj h1)
          rw [← h2]
          exact hm0f

/-- The per-value loop of _try_tolerance_fusion: the final maximum has a
positive denominator, bounds every tolerance match of every value, and
bounds the starting accumulator. -/
theorem tolOuterFold_spec (data : List Str) :
    ∀ (acc : Option (Q × Str)),
    (∀ m0 u0, acc = some (m0, u0) → 0 < m0.d) →
    ∀ mf uf, List.foldl tolStep acc data = some (mf, uf) →
    0 < mf.d ∧
      (∀ v ∈ data, ∀ p ∈ tolMatchesOf (trimL v), leQ (parseNumStr p.1) mf = true) ∧
      (∀ m0 u0, acc = some (m0, u0) → leQ m0 mf = true) := by
  induction data with
  | nil =>
    intro acc hacc mf uf h
    simp only [List.foldl_nil] at h
    refine ⟨hacc mf uf h, ?_, ?_⟩
    · intro v hv; cases hv
    · intro m0 u0 h0
      rw [h0] at h
      obtain ⟨h1, _⟩ := Prod.mk.inj (Option.some.inj h)
      rw [h1]
      exact leQ_refl mf
  | cons v t ih =>
    intro acc hacc mf uf h
    rw [List.foldl_cons, tolStep_eq] at h
    by_cases hvs : trimL v = []
    · rw [if_pos hvs] at h
      obtain ⟨hd, hall, hpush⟩ := ih acc hacc mf uf h
      refine ⟨hd, ?_, hpush⟩
      intro w hw
      rcases List.mem_cons.mp hw with rfl | hw2
      · intro p hp
        rw [hvs] at hp
        cases hp
      · exact hall w hw2
    · rw [if_neg hvs] at h
      rcases hin : List.foldl tolUpd acc (tolMatchesOf (trimL v)) with _ | mu
      · rw [hin] at h
        obtain ⟨hd, hall, hpush⟩ := ih none (by intro m0 u0 h0; cases h0) mf uf h
        obtain ⟨haccn, hmt⟩ := tolInnerFold_none (tolMatchesOf (trimL v)) acc hin
        refine ⟨hd, ?_, ?_⟩
        · intro w hw
          rcases List.mem_cons.mp hw with rfl | hw2
          · intro p hp
            rw [hmt] at hp
            cases hp
          · exact hall w hw2
        · intro m0 u0 h0
          rw [haccn] at h0
          cases h0
      · rw [hin] at h
        obtain ⟨hin_d, hin_all, hin_push⟩ :=
          tolInnerFold_spec (tolMatchesOf (trimL v)) acc hacc mu.1 mu.2 (by rw [hin])
        obtain ⟨hd, hall, hpush⟩ := ih (some mu) (by
          intro m0 u0 h0
          obtain ⟨h1, _⟩ := Prod.mk.inj (Option.some.inj h0)
          rw [← h1]
          exact hin_d) mf uf h
        have hmu_f : leQ mu.1 mf = true := hpush mu.1 mu.2 rfl
        refine ⟨hd, ?_, ?_⟩
        · intro w hw
          rcases List.mem_cons.mp hw with rfl | hw2
          · intro p hp
            exact leQ_trans (parseNumStr p.1) mu.1 mf hin_d (hin_all p hp) hmu_f
          · exact hall w hw2
        · intro m0 u0 h0
          exact leQ_trans m0 mu.1 mf hin_d (hin_push m0 u0 h0) hmu_f

/-- C2: on rows whose parameter name mentions 误差 and whose values include a
tolerance expression, the tolerance sub-strategy runs before ordinary
numeric fusion and short-circuits the chain when it returns a result; that
result is the maximum tolerance magnitude found formatted ≤±max-unit with
the tolerance-fusion type; on the example inputs ±5%, ±10%, 误差不超过8% the
row fuses to ≤±10% with the tolerance-fusion type. -/
theorem tolerance_priority_c2 :
    (∀ (f1 f2 f3 : Str → Str → Q) (kw : Str → List Str) (name : Str)
       (data : List Str) (a b : Str) (rest : List Str) (r t : Str),
       validOf data = a :: b :: rest →
       truthyOpt (tryExactMatch (a :: b :: rest)) = none →
       (a :: b :: rest).any isErrorTolerance = true →
       containsSub "误差".toList name = true →
       truthyOpt (tryToleranceFusion (a :: b :: rest)) = some (r, t) →
       processRow f1 f2 f3 kw name data = (r, t)) ∧
    (∀ (data : List Str) (r t : Str), tryToleranceFusion data = some (r, t) →
       t = toleranceFusionLabel ∧ ∃ m u, r = "≤±".toList ++ fmtG m ++ u ∧
         ∀ v ∈ data, ∀ p ∈ tolMatchesOf (trimL v), leQ (parseNumStr p.1) m = true) ∧
    processRow zeroMetric zeroMetric zeroMetric zeroKw "误差".toList
      (["±5%", "±10%", "误差不超过8%"].map String.toList) =
      ("≤±10%".toList, toleranceFusionLabel) := by
  refine ⟨?_, ?_, by decide⟩
  · intro f1 f2 f3 kw name data a b rest r t hvalid hex htol hname hres
    unfold processRow
    rw [hvalid]
    show (match truthyOpt (tryExactMatch (a :: b :: rest)) with
          | some (r, t) => (normalizeCompOps r, t)
          | none => numericStage f1 f2 f3 kw (a :: b :: rest) name) = (r, t)
    rw [hex]
    show numericStage f1 f2 f3 kw (a :: b :: rest) name = (r, t)
    unfold numericStage
    simp only []
    rw [htol, hname]
    have hc : (true && true) = true := rfl
    rw [if_pos hc]
    rw [hres]
  · intro data r t h
    unfold tryToleranceFusion at h
    rcases hb : List.foldl tolStep none data with _ | mu
    · rw [hb] at h
      cases h
    · rw [hb] at h
      obtain ⟨h1, h2⟩ := Prod.mk.inj (Option.some.inj h)
      obtain ⟨_, hall, _⟩ := tolOuterFold_spec data none (by intro m0 u0 h0; cases h0)
        mu.1 mu.2 (by rw [hb])
      exact ⟨h2.symm, mu.1, mu.2, h1.symm, hall⟩

/-- Witness for C2 at the concrete tolerance example. -/
theorem tolerance_priority_c2_witness :
    processRow zeroMetric zeroMetric zeroMetric zeroKw "误差".toList
      (["±5%", "±10%", "误差不超过8%"].map String.toList) =
      ("≤±10%".toList, toleranceFusionLabel) :=
  tolerance_priority_c2.1 zeroMetric zeroMetric zeroMetric zeroKw "误差".toList
    (["±5%", "±10%", "误差不超过8%"].map String.toList)
    "±5%".toList "±10%".toList ["误差不超过8%".toList]
    "≤±10%".toList toleranceFusionLabel
    (by decide) (by decide) (by decide) (by decide) (by decide)

theorem firstKeysGo_sub [DecidableEq α] (x : α) :
    ∀ (t acc : List α), x ∈ firstKeysGo t acc → x ∈ t ∨ x ∈ acc := by
  intro t
  induction t with
  | nil =>
    intro acc h
    rw [firstKeysGo] at h
    exact Or.inr (List.mem_reverse.mp h)
  | cons y s ih =>
    intro acc h
    rw [firstKeysGo] at h
    by_cases hy : y ∈ acc
    · rw [if_pos hy] at h
      rcases ih acc h with h1 | h2
      · exact Or.inl (List.mem_cons_of_mem y h1)
      · exact Or.inr h2
    · rw [if_neg hy] at h
      rcases ih (y :: acc) h with h1 | h2
      · exact Or.inl (List.mem_cons_of_mem y h1)
      · rcases List.mem_cons.mp h2 with rfl | h3
        · exact Or.inl (List.mem_cons_self x s)
        · exact Or.inr h3

theorem firstKeys_sub [DecidableEq α] (x : α) (l : List α) (h : x ∈ firstKeys l) : x ∈ l := by
  rcases firstKeysGo_sub x l [] h with h1 | h2
  · exact h1
  · cases h2

theorem mcFold_mem [DecidableEq α] (l : List α) :
    ∀ (ks : List α) (acc : Option (α × ℕ)) (m : α) (c : ℕ),
    ks.foldl (mcUpd l) acc = some (m, c) →
    (∃ c0, acc = some (m, c0)) ∨ m ∈ ks := by
  intro ks
  induction ks with
  | nil =>
    intro acc m c h
    simp only [List.foldl_nil] at h
    exact Or.inl ⟨c, h⟩
  | cons k t ih =>
    intro acc m c h
    rw [List.foldl_cons] at h
    rcases ih _ m c h with ⟨c0, hup⟩ | hm
    · match acc with
      | none =>
        rw [show mcUpd l none k = some (k, countIn l k) from rfl] at hup
        obtain ⟨h1, _⟩ := Prod.mk.inj (Option.some.inj hup)
        exact Or.inr (h1 ▸ List.mem_cons_self k t)
      | some (b, bc) =>
        rw [show mcUpd l (some (b, bc)) k =
            if bc < countIn l k then some (k, countIn l k) else some (b, bc) from rfl] at hup
        by_cases hlt : bc < countIn l k
        · rw [if_pos hlt] at hup
          obtain ⟨h1, _⟩ := Prod.mk.inj (Option.some.inj hup)
          exact Or.inr (h1 ▸ List.mem_cons_self k t)
        · rw [if_neg hlt] at hup
          obtain ⟨h1, _⟩ := Prod.mk.inj (Option.some.inj hup)
          exact Or.inl ⟨bc, by rw [h1]⟩
    · exact Or.inr (List.mem_cons_of_mem k hm)

theorem mostCommonL_mem [DecidableEq α] (l : List α) (m : α) (c : ℕ)
    (h : mostCommonL l = some (m, c)) : m ∈ l := by
  unfold mostCommonL at h
  rcases mcFold_mem l (firstKeys l) none m c h with ⟨c0, h0⟩ | hm
  · cases h0
  · exact firstKeys_sub m l hm

theorem indexOfL_lt [DecidableEq α] (x : α) :
    ∀ (l : List α), x ∈ l → indexOfL x l < l.length := by
  intro l
  induction l with
  | nil => intro h; cases h
  | cons y t ih =>
    intro h
    rw [indexOfL]
    by_cases hy : y = x
    · rw [if_pos hy]
      simp
    · rw [if_neg hy]
      have hxt : x ∈ t := by
        rcases List.mem_cons.mp h with rfl | h2
        · exact absurd rfl hy
        · exact h2
      have := ih hxt
      simp only [List.length_cons]
      omega

theorem getD_mem_of_lt (l : List α) (n : ℕ) (d : α) (h : n < l.length) : l.getD n d ∈ l := by
  induction l generalizing n with
  | nil => simp at h
  | cons a t ih =>
    match n with
    | 0 => rw [List.getD_cons_zero]; exact List.mem_cons_self a t
    | n + 1 =>
      rw [List.getD_cons_succ]
      exact List.mem_cons_of_mem a (ih n (by simp at h; omega))

theorem validOf_mem_ne (data : List Str) (o : Str) (h : o ∈ validOf data) : o ≠ [] := by
  unfold validOf at h
  have h2 := (List.mem_filter.mp h).2
  exact (of_decide_eq_true h2).1

/-- C4 counterexample: on the row with the two identical values >5 the
dispatcher answers with the exact-match type, but the returned text ≥5 is
the operator-canonicalized form, not the original text of any occurrence. -/
theorem exact_match_c4_counterexample :
    processRow zeroMetric zeroMetric zeroMetric zeroKw "p".toList
      ([">5", ">5"].map String.toList) = ("≥5".toList, exactMatchLabel) ∧
    "≥5".toList ∉ [">5", ">5"].map String.toList := by
  refine ⟨by decide, by decide⟩

/-- C4 (amended): on a row with at least two cleaned values whose most
frequent normalized punctuation-stripped form occurs at least twice, the
dispatcher returns the operator-canonicalized original text of that form
first occurrence with the exact-match type. -/
theorem exact_match_c4 (f1 f2 f3 : Str → Str → Q) (kw : Str → List Str) (name : Str)
    (data : List Str) (a b : Str) (rest : List Str) (m : Str) (c : ℕ)
    (hvalid : validOf data = a :: b :: rest)
    (hmc : mostCommonL ((a :: b :: rest).map
      (fun t => removePunctuation (normalizeText t false))) = some (m, c))
    (h2c : 2 ≤ c) :
    processRow f1 f2 f3 kw name data =
      (normalizeCompOps ((a :: b :: rest).getD
        (indexOfL m ((a :: b :: rest).map (fun t => removePunctuation (normalizeText t false)))) []),
       exactMatchLabel) := by
  have hmm : m ∈ (a :: b :: rest).map (fun t => removePunctuation (normalizeText t false)) :=
    mostCommonL_mem _ m c hmc
  have hlt := indexOfL_lt m _ hmm
  rw [List.length_map] at hlt
  have ho := getD_mem_of_lt (a :: b :: rest)
    (indexOfL m ((a :: b :: rest).map (fun t => removePunctuation (normalizeText t false)))) [] hlt
  have hne : (a :: b :: rest).getD
      (indexOfL m ((a :: b :: rest).map (fun t => removePunctuation (normalizeText t false)))) []
        ≠ [] := by
    apply validOf_mem_ne data
    rw [hvalid]
    exact ho
  have hexact : tryExactMatch (a :: b :: rest) =
      some ((a :: b :: rest).getD
        (indexOfL m ((a :: b :: rest).map (fun t => removePunctuation (normalizeText t false)))) [],
        exactMatchLabel) := by
    unfold tryExactMatch
    simp only []
    rw [hmc]
    simp only []
    rw [if_pos h2c]
  unfold processRow
  rw [hvalid]
  show (match truthyOpt (tryExactMatch (a :: b :: rest)) with
        | some (r, t) => (normalizeCompOps r, t)
        | none => numericStage f1 f2 f3 kw (a :: b :: rest) name) =
      (normalizeCompOps ((a :: b :: rest).getD
        (indexOfL m ((a :: b :: rest).map (fun t => removePunctuation (normalizeText t false)))) []),
       exactMatchLabel)
  rw [hexact, truthyOpt]
  rw [if_neg hne]

/-- Witness for the amended C4 at the concrete row with two >5 values. -/
theorem exact_match_c4_witness :
    processRow zeroMetric zeroMetric zeroMetric zeroKw "p".toList
      ([">5", ">5"].map String.toList) =
      (normalizeCompOps (([">5", ">5"].map String.toList).getD
        (indexOfL "5".toList (([">5", ">5"].map String.toList).map
          (fun t => removePunctuation (normalizeText t false)))) []),
       exactMatchLabel) :=
  exact_match_c4 zeroMetric zeroMetric zeroMetric zeroKw "p".toList
    ([">5", ">5"].map String.toList) ">5".toList ">5".toList [] "5".toList 2
    (by decide) (by decide) (by decide)

theorem truthyOpt_some (o : Option (Str × Str)) (r t : Str) (h : truthyOpt o = some (r, t)) :
    o = some (r, t) := by
  match o with
  | none => cases h
  | some (r0, t0) =>
    rw [truthyOpt] at h
    by_cases hr : r0 = []
    · rw [if_pos hr] at h; cases h
    · rw [if_neg hr] at h; exact h

theorem tryExactMatch_label (d : List Str) (r t : Str) (h : tryExactMatch d = some (r, t)) :
    t = exactMatchLabel := by
  unfold tryExactMatch at h
  simp only [] at h
  split at h
  · split at h
    · obtain ⟨_, h2⟩ := Prod.mk.inj (Option.some.inj h)
      exact h2.symm
    · cases h
  · cases h

theorem tryToleranceFusion_label (d : List Str) (r t : Str)
    (h : tryToleranceFusion d = some (r, t)) : t = toleranceFusionLabel := by
  unfold tryToleranceFusion at h
  split at h
  · obtain ⟨_, h2⟩ := Prod.mk.inj (Option.some.inj h)
    exact h2.symm
  · cases h

theorem mergeNumericValues_label (values : List Str) (name r t : Str)
    (h : mergeNumericValues values name = some (r, t)) :
    t = errorStructLabel ∨ t = exactMatchLabel ∨ t = numericRangeLabel ∨
      t = unitConversionLabel := by
  unfold mergeNumericValues at h
  simp only [] at h
  split at h
  · next r0 heq =>
    obtain hr0 := Option.some.inj h
    rw [hr0] at heq
    unfold mergeErrPath at heq
    repeat' split at heq
    all_goals try exact Option.noConfusion heq
    all_goals injection heq with hpair
    all_goals injection hpair with h1 h2
    all_goals exact Or.inl h2.symm
  · repeat' split at h
    all_goals try exact Option.noConfusion h
    all_goals injection h with hpair
    all_goals injection hpair with h1 h2
    all_goals first
      | exact Or.inl h2.symm
      | exact Or.inr (Or.inl h2.symm)
      | exact Or.inr (Or.inr (Or.inl h2.symm))
      | exact Or.inr (Or.inr (Or.inr h2.symm))

theorem tryNumericFusion_label (data : List Str) (name r t : Str)
    (h : tryNumericFusion data name = some (r, t)) :
    t = errorStructLabel ∨ t = exactMatchLabel ∨ t = numericRangeLabel ∨
      t = unitConversionLabel := by
  unfold tryNumericFusion at h
  simp only [] at h
  repeat' split at h
  all_goals try exact Option.noConfusion h
  all_goals exact mergeNumericValues_label _ name r t (truthyOpt_some _ r t h)

theorem trySimilarityFusion_label (f1 f2 f3 : Str → Str → Q) (thr : Q)
    (data : List Str) (r t : Str) (h : trySimilarityFusion f1 f2 f3 thr data = some (r, t)) :
    t = highSimilarityLabel := by
  unfold trySimilarityFusion at h
  simp only [] at h
  split at h
  · cases h
  · obtain ⟨h1, h2⟩ := Prod.mk.inj (Option.some.inj h)
    exact h2.symm

theorem findSome?_pair_label (lab : Str) (f : Str → Option (Str × Str))
    (hf : ∀ x r t, f x = some (r, t) → t = lab) :
    ∀ (l : List Str) (r t : Str), l.findSome? f = some (r, t) → t = lab := by
  intro l
  induction l with
  | nil => intro r t h; cases h
  | cons x xs ih =>
    intro r t h
    rw [List.findSome?] at h
    split at h
    · next b hb =>
      obtain hb2 := Option.some.inj h
      exact hf x r t (by rw [hb, hb2])
    · exact ih r t h

theorem trySemanticFusion_label (kw : Str → List Str) (data : List Str) (name r t : Str)
    (h : trySemanticFusion kw data name = some (r, t)) : t = semanticMatchLabel := by
  unfold trySemanticFusion at h
  simp only [] at h
  split at h
  · cases h
  · split at h
    · split at h
      · obtain ⟨h1, h2⟩ := Prod.mk.inj (Option.some.inj h)
        exact h2.symm
      · cases h
    · refine findSome?_pair_label semanticMatchLabel _ ?_ data r t h
      intro x r0 t0 hx
      simp only [] at hx
      split at hx
      · obtain ⟨h1, h2⟩ := Prod.mk.inj (Option.some.inj hx)
        exact h2.symm
      · cases hx

theorem semStage_label (kw : Str → List Str) (vd : List Str) (name : Str) :
    (semStage kw vd name).2 = semanticMatchLabel ∨
      (semStage kw vd name).2 = manualReviewLabel := by
  unfold semStage
  rcases hs : truthyOpt (trySemanticFusion kw vd name) with _ | ⟨r0, t0⟩
  · exact Or.inr rfl
  · exact Or.inl (trySemanticFusion_label kw vd name r0 t0 (truthyOpt_some _ r0 t0 hs))

theorem simStage_label (f1 f2 f3 : Str → Str → Q) (kw : Str → List Str)
    (vd : List Str) (name : Str) :
    (simStage f1 f2 f3 kw vd name).2 = highSimilarityLabel ∨
      (simStage f1 f2 f3 kw vd name).2 = mediumSimilarityLabel ∨
      (simStage f1 f2 f3 kw vd name).2 = semanticMatchLabel ∨
      (simStage f1 f2 f3 kw vd name).2 = manualReviewLabel := by
  unfold simStage
  rcases h8 : truthyOpt (trySimilarityFusion f1 f2 f3 (8/10) vd) with _ | ⟨r0, t0⟩
  · rcases h6 : truthyOpt (trySimilarityFusion f1 f2 f3 (6/10) vd) with _ | ⟨r1, t1⟩
    · rcases semStage_label kw vd name with hs | hs
      · exact Or.inr (Or.inr (Or.inl hs))
      · exact Or.inr (Or.inr (Or.inr hs))
    · exact Or.inr (Or.inl rfl)
  · exact Or.inl
      (trySimilarityFusion_label f1 f2 f3 (8/10) vd r0 t0 (truthyOpt_some _ r0 t0 h8))

theorem numericStage_label (f1 f2 f3 : Str → Str → Q) (kw : Str → List Str)
    (vd : List Str) (name : Str) :
    (numericStage f1 f2 f3 kw vd name).2 = toleranceFusionLabel ∨
      (numericStage f1 f2 f3 kw vd name).2 = errorStructLabel ∨
      (numericStage f1 f2 f3 kw vd name).2 = exactMatchLabel ∨
      (numericStage f1 f2 f3 kw vd name).2 = numericRangeLabel ∨
      (numericStage f1 f2 f3 kw vd name).2 = unitConversionLabel ∨
      (numericStage f1 f2 f3 kw vd name).2 = highSimilarityLabel ∨
      (numericStage f1 f2 f3 kw vd name).2 = mediumSimilarityLabel ∨
      (numericStage f1 f2 f3 kw vd name).2 = semanticMatchLabel ∨
      (numericStage f1 f2 f3 kw vd name).2 = manualReviewLabel := by
  unfold numericStage
  simp only []
  rcases h1 : (if (vd.any isErrorTolerance && containsSub "误差".toList name) = true then
      truthyOpt (tryToleranceFusion vd) else none) with _ | ⟨r0, t0⟩
  · rcases h2 : (if (vd.all isNumericB && !vd.any hasModelKeywords &&
        !vd.any isDimensionSpecification && !vd.any isErrorTolerance) = true then
        truthyOpt (tryNumericFusion vd name) else none) with _ | ⟨r1, t1⟩
    · rcases simStage_label f1 f2 f3 kw vd name with hs | hs | hs | hs
      · exact Or.inr (Or.inr (Or.inr (Or.inr (Or.inr (Or.inl hs)))))
      · exact Or.inr (Or.inr (Or.inr (Or.inr (Or.inr (Or.inr (Or.inl hs))))))
      · exact Or.inr (Or.inr (Or.inr (Or.inr (Or.inr (Or.inr (Or.inr (Or.inl hs)))))))
      · exact Or.inr (Or.inr (Or.inr (Or.inr (Or.inr (Or.inr (Or.inr (Or.inr hs)))))))
    · have ht1 : t1 = errorStructLabel ∨ t1 = exactMatchLabel ∨ t1 = numericRangeLabel ∨
          t1 = unitConversionLabel := by
        split at h2
        · exact tryNumericFusion_label vd name r1 t1 (truthyOpt_some _ r1 t1 h2)
        · cases h2
      show t1 = toleranceFusionLabel ∨ t1 = errorStructLabel ∨ t1 = exactMatchLabel ∨
        t1 = numericRangeLabel ∨ t1 = unitConversionLabel ∨ _ = highSimilarityLabel ∨
        _ = mediumSimilarityLabel ∨ _ = semanticMatchLabel ∨ _ = manualReviewLabel
      rcases ht1 with h | h | h | h
      · exact .inr (.inl h)
      · exact .inr (.inr (.inl h))
      · exact .inr (.inr (.inr (.inl h)))
      · exact .inr (.inr (.inr (.inr (.inl h))))
  · have ht0 : t0 = toleranceFusionLabel := by
      split at h1
      · exact tryToleranceFusion_label vd r0 t0 (truthyOpt_some _ r0 t0 h1)
      · cases h1
    exact Or.inl ht0

/-- C5 counterexample: a row of ±-structured weights fuses through the
error-structure path of merge_numeric_values and is labelled 误差结构融合,
a fusion type outside the declared FUSION_TYPES labels. -/
theorem fusion_label_c5_counterexample :
    processRow zeroMetric zeroMetric zeroMetric zeroKw [] 
      (["±5kg", "±3kg"].map String.toList) = ("5kg".toList, errorStructLabel) ∧
    errorStructLabel ∉ declaredFusionLabels := by
  refine ⟨by decide, by decide⟩

/-- C5 (amended): every fusion type produced by process_row is one of the
declared FUSION_TYPES labels or the undeclared error-structure label
误差结构融合. -/
theorem fusion_label_c5 (f1 f2 f3 : Str → Str → Q) (kw : Str → List Str) (name : Str)
    (data : List Str) :
    (processRow f1 f2 f3 kw name data).2 ∈ declaredFusionLabels ++ [errorStructLabel] := by
  unfold processRow
  split
  · decide
  · show singleSupplierLabel ∈ declaredFusionLabels ++ [errorStructLabel]
    decide
  · rcases he : truthyOpt (tryExactMatch _) with _ | ⟨r0, t0⟩
    · rcases numericStage_label f1 f2 f3 kw _ name with
        h | h | h | h | h | h | h | h | h <;>
      · show (numericStage f1 f2 f3 kw _ name).2 ∈ _
        rw [h]
        decide
    · have ht0 : t0 = exactMatchLabel :=
        tryExactMatch_label _ r0 t0 (truthyOpt_some _ r0 t0 he)
      show t0 ∈ _
      rw [ht0]
      decide

theorem specClustersGo_nil (q : Str → Str → Bool) (f : ℕ) : specClustersGo q f [] = [] := by
  match f with
  | 0 => rfl
  | f + 1 => rfl

theorem mapGetD_range (l : List Str) :
    (List.range l.length).map (fun i => l.getD i []) = l := by
  induction l with
  | nil => rfl
  | cons a t ih =>
    rw [List.length_cons, List.range_succ_eq_map, List.map_cons, List.map_map]
    show a :: (List.range t.length).map (fun i => (a :: t).getD (i + 1) []) = a :: t
    have h2 : ∀ i, (a :: t).getD (i + 1) ([] : Str) = t.getD i [] := fun i =>
      List.getD_cons_succ
    rw [show (fun i => (a :: t).getD (i + 1) ([] : Str)) = (fun i => t.getD i []) from
      funext h2]
    rw [ih]

theorem filter_not_mem_nil (l : List ℕ) :
    l.filter (fun i => decide (i ∉ ([] : List ℕ))) = l := by
  induction l with
  | nil => rfl
  | cons a t ih =>
    rw [List.filter_cons, if_pos (by simp)]
    rw [ih]

theorem foldl_upd_mem {α : Type} :
    ∀ (cs : List (List α)) (acc : List α),
    cs.foldl (fun acc x => if acc.length < x.length then x else acc) acc = acc ∨
      cs.foldl (fun acc x => if acc.length < x.length then x else acc) acc ∈ cs := by
  intro cs
  induction cs with
  | nil => intro acc; exact Or.inl rfl
  | cons g t ih =>
    intro acc
    rw [List.foldl_cons]
    rcases ih (if acc.length < g.length then g else acc) with h | h
    · rw [h]
      by_cases hl : acc.length < g.length
      · rw [if_pos hl]; exact Or.inr (List.mem_cons_self g t)
      · rw [if_neg hl]; exact Or.inl rfl
    · exact Or.inr (List.mem_cons_of_mem g h)

theorem foldl_upd_map {α β : Type} (m : α → β) :
    ∀ (cs : List (List α)) (acc : List α),
    (cs.foldl (fun acc x => if acc.length < x.length then x else acc) acc).map m =
      (cs.map (fun x => x.map m)).foldl
        (fun acc x => if acc.length < x.length then x else acc) (acc.map m) := by
  intro cs
  induction cs with
  | nil => intro acc; rfl
  | cons g t ih =>
    intro acc
    rw [List.map_cons, List.foldl_cons, List.foldl_cons, ih]
    by_cases hl : acc.length < g.length
    · rw [if_pos hl, if_pos (by rw [List.length_map, List.length_map]; exact hl)]
    · rw [if_neg hl, if_neg (by rw [List.length_map, List.length_map]; exact hl)]

theorem foldl_upd_filter {α : Type} :
    ∀ (cs : List (List α)) (acc : List α), 2 ≤ acc.length →
    cs.foldl (fun acc x => if acc.length < x.length then x else acc) acc =
      (cs.filter (fun g => 2 ≤ g.length)).foldl
        (fun acc x => if acc.length < x.length then x else acc) acc := by
  intro cs
  induction cs with
  | nil => intro acc _; rfl
  | cons g t ih =>
    intro acc hacc
    rw [List.filter_cons]
    by_cases hg : 2 ≤ g.length
    · rw [if_pos (decide_eq_true hg)]
      rw [List.foldl_cons, List.foldl_cons]
      apply ih
      by_cases hl : acc.length < g.length
      · rw [if_pos hl]; exact hg
      · rw [if_neg hl]; exact hacc
    · rw [if_neg (by simp [hg])]
      rw [List.foldl_cons]
      have hl : ¬ acc.length < g.length := by omega
      rw [if_neg hl]
      exact ih acc hacc

theorem foldl_upd_filter_short {α : Type} :
    ∀ (cs : List (List α)) (acc k : List α) (ks : List (List α)), acc.length ≤ 1 →
    cs.filter (fun g => 2 ≤ g.length) = k :: ks →
    cs.foldl (fun acc x => if acc.length < x.length then x else acc) acc =
      ks.foldl (fun acc x => if acc.length < x.length then x else acc) k := by
  intro cs
  induction cs with
  | nil => intro acc k ks _ h; cases h
  | cons g t ih =>
    intro acc k ks hacc hf
    rw [List.filter_cons] at hf
    rw [List.foldl_cons]
    by_cases hg : 2 ≤ g.length
    · rw [if_pos (decide_eq_true hg)] at hf
      obtain ⟨rfl, rfl⟩ := List.cons.inj hf
      rw [if_pos (by omega)]
      exact foldl_upd_filter t g hg
    · rw [if_neg (by simp [hg])] at hf
      by_cases hl : acc.length < g.length
      · rw [if_pos hl]
        exact ih g k ks (by omega) hf
      · rw [if_neg hl]
        exact ih acc k ks hacc hf

/-- The greedy index clustering of try_similarity_fusion computes, item-wise,
the spec clustering restricted to clusters of size at least two. -/
theorem simGroupsGo_spec (data : List Str) (p : ℕ → ℕ → Bool) (q : Str → Str → Bool)
    (hpq : ∀ i j, p i j = q (data.getD i []) (data.getD j [])) :
    ∀ (rest used : List ℕ) (f : ℕ), rest.Nodup →
    (rest.filter (fun i => decide (i ∉ used))).length ≤ f →
    (simGroupsGo p rest used).map (fun g => g.map (fun i => data.getD i [])) =
      (specClustersGo q f ((rest.filter (fun i => decide (i ∉ used))).map
        (fun i => data.getD i []))).filter (fun g => 2 ≤ g.length) := by
  intro rest
  induction rest with
  | nil =>
    intro used f _ _
    simp only [simGroupsGo, List.filter_nil, List.map_nil, specClustersGo_nil]
  | cons i rest2 ih =>
    intro used f hnd hf
    have hnd2 : rest2.Nodup := (List.nodup_cons.mp hnd).2
    have hi2 : i ∉ rest2 := (List.nodup_cons.mp hnd).1
    rw [simGroupsGo]
    by_cases hiu : i ∈ used
    · rw [if_pos hiu]
      have hfc : (i :: rest2).filter (fun j => decide (j ∉ used)) =
          rest2.filter (fun j => decide (j ∉ used)) := by
        rw [List.filter_cons, if_neg (by simp [hiu])]
      rw [hfc] at hf
      rw [hfc]
      exact ih used f hnd2 hf
    · rw [if_neg hiu]
      simp only []
      have hfc : (i :: rest2).filter (fun j => decide (j ∉ used)) =
          i :: rest2.filter (fun j => decide (j ∉ used)) := by
        rw [List.filter_cons, if_pos (by simp [hiu])]
      rw [hfc] at hf ⊢
      have hf2 : (rest2.filter (fun j => decide (j ∉ used))).length ≤ f - 1 := by
        rw [List.length_cons] at hf
        omega
      match f with
      | 0 => rw [List.length_cons] at hf; omega
      | f2 + 1 =>
        rw [List.map_cons, specClustersGo]
        have hA : (((rest2.filter (fun j => decide (j ∉ used))).map
            (fun k => data.getD k [])).filter (q (data.getD i []))) =
            (rest2.filter (fun j => decide (j ∉ used) && p i j)).map
              (fun k => data.getD k []) := by
          rw [List.filter_map, List.filter_filter]
          refine congrArg (List.map (fun k => data.getD k [])) ?_
          refine List.filter_congr ?_
          intro j hj
          show ((q (data.getD i []) ∘ (fun k => data.getD k [])) j && decide (j ∉ used)) =
            (decide (j ∉ used) && p i j)
          simp only [Function.comp]
          rw [hpq i j]
          exact Bool.and_comm _ _
        have hB : (((rest2.filter (fun j => decide (j ∉ used))).map
            (fun k => data.getD k [])).filter (fun y => !(q (data.getD i []) y))) =
            (rest2.filter (fun j => decide (j ∉ used) && !(p i j))).map
              (fun k => data.getD k []) := by
          rw [List.filter_map, List.filter_filter]
          refine congrArg (List.map (fun k => data.getD k [])) ?_
          refine List.filter_congr ?_
          intro j hj
          show (((fun y => !(q (data.getD i []) y)) ∘ (fun k => data.getD k [])) j &&
            decide (j ∉ used)) = (decide (j ∉ used) && !(p i j))
          simp only [Function.comp]
          rw [hpq i j]
          exact Bool.and_comm _ _
        by_cases hg : 2 ≤ (i :: rest2.filter (fun j => decide (j ∉ used) && p i j)).length
        · rw [if_pos hg]
          rw [List.map_cons, List.filter_cons]
          have hclen : (data.getD i [] ::
              (((rest2.filter (fun j => decide (j ∉ used))).map
                (fun k => data.getD k [])).filter (q (data.getD i [])))).length =
              (i :: rest2.filter (fun j => decide (j ∉ used) && p i j)).length := by
            rw [hA, List.length_cons, List.length_cons, List.length_map]
          rw [hclen]
          rw [if_pos (decide_eq_true hg)]
          have hC : rest2.filter (fun j =>
              decide (j ∉ used ++ i :: rest2.filter (fun j => decide (j ∉ used) && p i j))) =
              rest2.filter (fun j => decide (j ∉ used) && !(p i j)) := by
            refine List.filter_congr ?_
            intro j hj
            have hji : j ≠ i := fun he => hi2 (he ▸ hj)
            by_cases hju : j ∈ used
            · simp [hju]
            · by_cases hjp : p i j = true
              · have hjm : j ∈ rest2.filter (fun j => decide (j ∉ used) && p i j) := by
                  rw [List.mem_filter]
                  exact ⟨hj, by simp [hju, hjp]⟩
                have hmem : j ∈ used ++ i :: rest2.filter
                    (fun j => decide (j ∉ used) && p i j) := by
                  rw [List.mem_append, List.mem_cons]
                  exact Or.inr (Or.inr hjm)
                simp [hmem, hju, hjp]
                try exact fun _ => hj
              · have hjm : j ∉ rest2.filter (fun j => decide (j ∉ used) && p i j) := by
                  rw [List.mem_filter]
                  intro hcon
                  have := hcon.2
                  simp [hju] at this
                  exact hjp this
                have hmem : j ∉ used ++ i :: rest2.filter
                    (fun j => decide (j ∉ used) && p i j) := by
                  rw [List.mem_append, List.mem_cons]
                  rintro (h1 | h2 | h3)
                  · exact hju h1
                  · exact hji h2
                  · exact hjm h3
                have hjp2 : p i j = false := by
                  cases hpv : p i j
                  · rfl
                  · exact absurd hpv hjp
                simp [hmem, hju, hjp2]
                try exact hji
          refine congrArg₂ List.cons ?_ ?_
          · rw [hA, List.map_cons]
          · have hrec := ih (used ++ i :: rest2.filter (fun j => decide (j ∉ used) && p i j))
              f2 hnd2 (by
                rw [hC]
                have hcomp : rest2.filter (fun j => decide (j ∉ used) && !(p i j)) =
                    (rest2.filter (fun j => decide (j ∉ used))).filter (fun j => !(p i j)) := by
                  rw [List.filter_filter]
                  refine List.filter_congr ?_
                  intro j hj
                  exact (Bool.and_comm _ _)
                rw [hcomp]
                calc ((rest2.filter (fun j => decide (j ∉ used))).filter
                      (fun j => !(p i j))).length
                    ≤ (rest2.filter (fun j => decide (j ∉ used))).length :=
                      List.length_filter_le _ _
                  _ ≤ f2 := by simpa using hf2)
            rw [hC] at hrec
            rw [hrec, hB]
        · rw [if_neg hg]
          have hM0 : rest2.filter (fun j => decide (j ∉ used) && p i j) = [] := by
            rw [List.length_cons] at hg
            have : (rest2.filter (fun j => decide (j ∉ used) && p i j)).length = 0 := by omega
            exact List.eq_nil_of_length_eq_zero this
          rw [List.filter_cons]
          have hclen : (data.getD i [] ::
              (((rest2.filter (fun j => decide (j ∉ used))).map
                (fun k => data.getD k [])).filter (q (data.getD i [])))).length = 1 := by
            rw [hA, hM0, List.map_nil, List.length_cons, List.length_nil]
          rw [if_neg (by rw [hclen]; decide)]
          have hBall : (((rest2.filter (fun j => decide (j ∉ used))).map
              (fun k => data.getD k [])).filter (fun y => !(q (data.getD i []) y))) =
              ((rest2.filter (fun j => decide (j ∉ used))).map (fun k => data.getD k [])) := by
            have hallq : ∀ y ∈ ((rest2.filter (fun j => decide (j ∉ used))).map
                (fun k => data.getD k [])), ¬ q (data.getD i []) y = true := by
              have := hA
              rw [hM0, List.map_nil] at this
              exact fun y hy => List.filter_eq_nil_iff.mp this y hy
            refine List.filter_eq_self.mpr ?_
            intro y hy
            have hqf : q (data.getD i []) y = false := by
              cases hq : q (data.getD i []) y
              · rfl
              · exact absurd hq (hallq y hy)
            simp only [hqf]
            rfl
          rw [hBall]
          exact ih used f2 hnd2 (by simpa using hf2)

theorem headD_map_ne {β : Type} (m : ℕ → β) (l : List ℕ) (d : β) (hd : l ≠ []) :
    (l.map m).headD d = m (l.headD 0) := by
  match l with
  | [] => exact absurd rfl hd
  | a :: t => rfl

/-- C7 (amended): similarity fusion equals the spec greedy clustering read
with a non-strict threshold: score two texts by the maximum of the three
metrics, cluster greedily left to right claiming every later item whose
score reaches threshold*100, and answer the first member of the first
largest cluster when its size is at least two. -/
theorem similarity_fusion_c7 (f1 f2 f3 : Str → Str → Q) (thr : Q) (data : List Str) :
    trySimilarityFusion f1 f2 f3 thr data =
      (specSimilarityFusion (fun a b => leQ (thr * 100)
        (maxQ (maxQ (calcSimilarity f1 a b) (calcSimilarity f2 a b))
          (calcSimilarity f3 a b))) data).map (fun s => (s, highSimilarityLabel)) := by
  unfold trySimilarityFusion specSimilarityFusion specClusters
  simp only []
  have hmain := simGroupsGo_spec data
    (fun i j => leQ (thr * 100) (simPairScore f1 f2 f3 (data.getD i []) (data.getD j [])))
    (fun a b => leQ (thr * 100)
      (maxQ (maxQ (calcSimilarity f1 a b) (calcSimilarity f2 a b)) (calcSimilarity f3 a b)))
    (fun i j => rfl)
    (List.range data.length) [] data.length (List.nodup_range data.length)
    (by rw [filter_not_mem_nil, List.length_range])
  rw [filter_not_mem_nil, mapGetD_range] at hmain
  rcases hg : simGroupsGo
      (fun i j => leQ (thr * 100) (simPairScore f1 f2 f3 (data.getD i []) (data.getD j [])))
      (List.range data.length) [] with _ | ⟨g0, gs⟩
  · rw [hg] at hmain
    rcases hc : specClustersGo (fun a b => leQ (thr * 100)
        (maxQ (maxQ (calcSimilarity f1 a b) (calcSimilarity f2 a b))
          (calcSimilarity f3 a b))) data.length data with _ | ⟨c0, cs⟩
    · rfl
    · rw [hc] at hmain
      have hshort : ∀ g ∈ c0 :: cs, ¬ (2 ≤ g.length) := by
        intro g hg2
        have h2 := List.filter_eq_nil_iff.mp hmain.symm g hg2
        simpa using h2
      show (none : Option (Str × Str)) =
        (if 2 ≤ ((c0 :: cs).foldl
            (fun acc x => if acc.length < x.length then x else acc) c0).length then
          some (((c0 :: cs).foldl
            (fun acc x => if acc.length < x.length then x else acc) c0).headD [])
        else none).map (fun s => (s, highSimilarityLabel))
      have hnot : ¬ (2 ≤ ((c0 :: cs).foldl
          (fun acc x => if acc.length < x.length then x else acc) c0).length) := by
        rcases foldl_upd_mem (c0 :: cs) c0 with h | h
        · rw [h]
          exact hshort c0 (List.mem_cons_self c0 cs)
        · exact hshort _ h
      rw [if_neg hnot]
      rfl
  · rw [hg, List.map_cons] at hmain
    rcases hc : specClustersGo (fun a b => leQ (thr * 100)
        (maxQ (maxQ (calcSimilarity f1 a b) (calcSimilarity f2 a b))
          (calcSimilarity f3 a b))) data.length data with _ | ⟨c0, cs⟩
    · rw [hc, List.filter_nil] at hmain
      cases hmain
    · rw [hc] at hmain
      have hsub : ∀ x ∈ (g0.map (fun i => data.getD i [])) ::
          gs.map (fun g => g.map (fun i => data.getD i [])), 2 ≤ x.length := by
        intro x hx
        rw [hmain] at hx
        have h2 := (List.mem_filter.mp hx).2
        simpa using h2
      have h1 : (c0 :: cs).foldl (fun acc x => if acc.length < x.length then x else acc) c0 =
          cs.foldl (fun acc x => if acc.length < x.length then x else acc) c0 := by
        rw [List.foldl_cons, if_neg (lt_irrefl _)]
      have hfold : (c0 :: cs).foldl (fun acc x => if acc.length < x.length then x else acc) c0 =
          (gs.map (fun g => g.map (fun i => data.getD i []))).foldl
            (fun acc x => if acc.length < x.length then x else acc)
            (g0.map (fun i => data.getD i [])) := by
        by_cases hc0 : 2 ≤ c0.length
        · rw [List.filter_cons, if_pos (decide_eq_true hc0)] at hmain
          obtain ⟨h2, h3⟩ := List.cons.inj hmain
          rw [h1, foldl_upd_filter cs c0 hc0, ← h3, h2]
        · rw [List.filter_cons, if_neg (by simp [hc0])] at hmain
          rw [h1]
          exact foldl_upd_filter_short cs c0 (g0.map (fun i => data.getD i []))
            (gs.map (fun g => g.map (fun i => data.getD i []))) (by omega) hmain.symm
      have hlen2 : 2 ≤ ((c0 :: cs).foldl
          (fun acc x => if acc.length < x.length then x else acc) c0).length := by
        rw [hfold]
        rcases foldl_upd_mem (gs.map (fun g => g.map (fun i => data.getD i [])))
            (g0.map (fun i => data.getD i [])) with h | h
        · rw [h]
          exact hsub _ (List.mem_cons_self _ _)
        · exact hsub _ (List.mem_cons_of_mem _ h)
      show some (data.getD (((g0 :: gs).foldl
          (fun acc g => if acc.length < g.length then g else acc) g0).headD 0) [],
          highSimilarityLabel) =
        (if 2 ≤ ((c0 :: cs).foldl
            (fun acc x => if acc.length < x.length then x else acc) c0).length then
          some (((c0 :: cs).foldl
            (fun acc x => if acc.length < x.length then x else acc) c0).headD [])
        else none).map (fun s => (s, highSimilarityLabel))
      rw [if_pos hlen2]
      have hN1 : (g0 :: gs).foldl (fun acc g => if acc.length < g.length then g else acc) g0 =
          gs.foldl (fun acc g => if acc.length < g.length then g else acc) g0 := by
        rw [List.foldl_cons, if_neg (lt_irrefl _)]
      have hmap : ((c0 :: cs).foldl
          (fun acc x => if acc.length < x.length then x else acc) c0) =
          (gs.foldl (fun acc g => if acc.length < g.length then g else acc) g0).map
            (fun i => data.getD i []) := by
        rw [hfold, foldl_upd_map]
      have hne : gs.foldl (fun acc g => if acc.length < g.length then g else acc) g0 ≠ [] := by
        intro hnil
        rw [hmap, hnil] at hlen2
        simp at hlen2
      rw [hmap, headD_map_ne _ _ _ hne, hN1]
      rfl

/-- C7 counterexample: at a pair score exactly equal to threshold*100 the
engine clusters and fuses (its comparison is non-strict), while the claim
wording — similarity must exceed the threshold — yields no fusion. -/
theorem similarity_fusion_c7_counterexample :
    trySimilarityFusion const80Metric const80Metric const80Metric (8/10)
      (["a", "b"].map String.toList) = some ("a".toList, highSimilarityLabel) ∧
    specSimilarityFusionStrict
      (simPairScore const80Metric const80Metric const80Metric)
      ((8/10 : Q) * 100) (["a", "b"].map String.toList) = none := by
  refine ⟨by decide, by decide⟩

/-- When two distinct collected units do not convert, the unit gate of
try_numeric_fusion fails and the strategy yields nothing. -/
theorem tryNumericFusion_gate_none (data : List Str) (name u v : Str)
    (hu : u ∈ rowUnitsOf (dwuOf (data.filter (fun d => isRelevantData d name))))
    (hv : v ∈ rowUnitsOf (dwuOf (data.filter (fun d => isRelevantData d name))))
    (huv : u ≠ v) (hconv : convertUnit 1 u v = none) :
    tryNumericFusion data name = none := by
  unfold tryNumericFusion
  simp only []
  by_cases h1 : data.filter (fun d => isRelevantData d name) = []
  · rw [if_pos h1]
  · rw [if_neg h1]
    by_cases h2 : dwuOf (data.filter (fun d => isRelevantData d name)) = []
    · rw [if_pos h2]
    · rw [if_neg h2]
      rcases hAU : rowUnitsOf (dwuOf (data.filter (fun d => isRelevantData d name)))
        with _ | ⟨a, _ | ⟨b, t⟩⟩
      · rw [hAU] at hu
        cases hu
      · rw [hAU] at hu hv
        have hu2 : u = a := by simpa using hu
        have hv2 : v = a := by simpa using hv
        exact absurd (hu2.trans hv2.symm) huv
      · rw [hAU] at hu hv
        simp only []
        have hall : (a :: b :: t).tail.all
            (fun w => (convertUnit 1 w ((a :: b :: t).headD [])).isSome) = false := by
          cases hval : (a :: b :: t).tail.all
            (fun w => (convertUnit 1 w ((a :: b :: t).headD [])).isSome)
          · rfl
          · exfalso
            have hP : ∀ w ∈ a :: b :: t, w = a ∨ (convertUnit 1 w a).isSome = true := by
              intro w hw
              rcases List.mem_cons.mp hw with rfl | hw2
              · exact Or.inl rfl
              · right
                have h3 := List.all_eq_true.mp hval w (by exact hw2)
                simpa using h3
            have hcv : (convertUnit 1 u v).isSome = true := by
              rcases hP u hu with rfl | hu3
              · rcases hP v hv with rfl | hv3
                · exact absurd rfl huv
                · exact convertible_symm v u hv3
              · rcases hP v hv with rfl | hv3
                · exact hu3
                · exact convertible_trans u a v hu3 (convertible_symm v a hv3)
            rw [hconv] at hcv
            cases hcv
        rw [hall]
        rw [if_pos rfl]

/-- C1 counterexample: a row holding a hertz value and second values fuses to
a numeric range, because the relevance filter drops the hertz value before
the unit gate runs; the two units are present among the cleaned values and do
not convert. -/
theorem numeric_unit_gate_c1_counterexample :
    processRow zeroMetric zeroMetric zeroMetric zeroKw "time".toList
      (["5 Hz", "time 10s", "time 20s"].map String.toList) =
      ("time10-20s".toList, numericRangeLabel) ∧
    "hz".toList ∈ rowUnitsOf (dwuOf (validOf
      (["5 Hz", "time 10s", "time 20s"].map String.toList))) ∧
    "s".toList ∈ rowUnitsOf (dwuOf (validOf
      (["5 Hz", "time 10s", "time 20s"].map String.toList))) ∧
    convertUnit 1 "hz".toList "s".toList = none := by
  refine ⟨by decide, by decide, by decide, by decide⟩

/-- C1 (amended): when two distinct units collected from the
relevance-filtered values do not convert via the Unit Table, numeric fusion
yields no result; in particular a row whose relevance-filtered cleaned
values still carry both hertz and second units never fuses to the
numeric-range or unit-conversion type. -/
theorem numeric_unit_gate_c1 :
    (∀ (data : List Str) (name u v : Str),
       u ∈ rowUnitsOf (dwuOf (data.filter (fun d => isRelevantData d name))) →
       v ∈ rowUnitsOf (dwuOf (data.filter (fun d => isRelevantData d name))) →
       u ≠ v → convertUnit 1 u v = none →
       tryNumericFusion data name = none) ∧
    (∀ (f1 f2 f3 : Str → Str → Q) (kw : Str → List Str) (name : Str) (data : List Str),
       "hz".toList ∈ rowUnitsOf (dwuOf ((validOf data).filter
         (fun d => isRelevantData d name))) →
       "s".toList ∈ rowUnitsOf (dwuOf ((validOf data).filter
         (fun d => isRelevantData d name))) →
       (processRow f1 f2 f3 kw name data).2 ≠ numericRangeLabel ∧
       (processRow f1 f2 f3 kw name data).2 ≠ unitConversionLabel) := by
  refine ⟨tryNumericFusion_gate_none, ?_⟩
  intro f1 f2 f3 kw name data hhz hs
  have hnone : tryNumericFusion (validOf data) name = none :=
    tryNumericFusion_gate_none (validOf data) name "hz".toList "s".toList hhz hs
      (by decide) (by decide)
  unfold processRow
  split
  · exact ⟨by decide, by decide⟩
  · constructor
    · show singleSupplierLabel ≠ numericRangeLabel
      decide
    · show singleSupplierLabel ≠ unitConversionLabel
      decide
  · rcases he : truthyOpt (tryExactMatch (validOf data)) with _ | ⟨r0, t0⟩
    · unfold numericStage
      simp only []
      rcases htl : (if ((validOf data).any isErrorTolerance &&
          containsSub "误差".toList name) = true then
          truthyOpt (tryToleranceFusion (validOf data)) else none) with _ | ⟨r1, t1⟩
      · have hnum : (if ((validOf data).all isNumericB &&
            !(validOf data).any hasModelKeywords &&
            !(validOf data).any isDimensionSpecification &&
            !(validOf data).any isErrorTolerance) = true then
            truthyOpt (tryNumericFusion (validOf data) name) else none) = none := by
          split
          · rw [hnone]
            rfl
          · rfl
        rw [hnum]
        rcases simStage_label f1 f2 f3 kw (validOf data) name with h | h | h | h <;>
        · constructor
          · rw [h]
            decide
          · rw [h]
            decide
      · have ht1 : t1 = toleranceFusionLabel := by
          split at htl
          · exact tryToleranceFusion_label (validOf data) r1 t1 (truthyOpt_some _ r1 t1 htl)
          · cases htl
        show t1 ≠ numericRangeLabel ∧ t1 ≠ unitConversionLabel
        rw [ht1]
        exact ⟨by decide, by decide⟩
    · have ht0 : t0 = exactMatchLabel :=
        tryExactMatch_label (validOf data) r0 t0 (truthyOpt_some _ r0 t0 he)
      show t0 ≠ numericRangeLabel ∧ t0 ≠ unitConversionLabel
      rw [ht0]
      exact ⟨by decide, by decide⟩

/-- Witness for the amended C1 at a row whose hertz and second values both
survive the relevance filter. -/
theorem numeric_unit_gate_c1_witness :
    (processRow zeroMetric zeroMetric zeroMetric zeroKw []
      (["50 Hz", "0.5 s"].map String.toList)).2 ≠ numericRangeLabel ∧
    (processRow zeroMetric zeroMetric zeroMetric zeroKw []
      (["50 Hz", "0.5 s"].map String.toList)).2 ≠ unitConversionLabel :=
  numeric_unit_gate_c1.2 zeroMetric zeroMetric zeroMetric zeroKw []
    (["50 Hz", "0.5 s"].map String.toList) (by decide) (by decide)
